import Mathlib

/-! LocalSampleTrack: sample pacing and RTP packetization.

A shallow embedding of `localsampletrack.go` (package `lksdk`) together with the
parts of its dependencies that the code calls: the `float64` arithmetic of Go and
`time.Duration.Seconds`, `strings.ToLower`, `time.Ticker.Reset`, and the
`pion/rtp` sequencer, packetizer, header extensions and audio-level extension.

Bytes are natural numbers below 256, machine integers are `Nat`/`Int` with the
wrap-around written out, and randomness, the clock, the transport and the
scheduler are explicit inputs.
-/

/-! ## Go `float64` arithmetic (finite values, round to nearest, ties to even) -/

namespace float64

/-- A finite binary64 value `m * 2^e`.  Results of the operations below carry a
mantissa normalised to `2^52 ≤ |m| < 2^53` (or are the canonical zero), so equal
values have equal representations.  Exponent range limits (overflow to infinity,
subnormals) are not modelled: `Duration.Seconds` times a `uint32` clock rate
stays between `1e-9` and `2^96` in magnitude. -/
structure F64 where
  m : Int
  e : Int
deriving DecidableEq, Repr

/-- Doubles `a` until `2^52 * b ≤ a`; returns the scaled numerator and the number
of doublings.  The first argument bounds the number of steps. -/
def scaleUp : Nat → Nat → Nat → Nat × Nat
  | 0, a, _ => (a, 0)
  | f + 1, a, b =>
    if 2 ^ 52 * b ≤ a then (a, 0)
    else ((scaleUp f (2 * a) b).1, (scaleUp f (2 * a) b).2 + 1)

/-- Doubles `b` until `a < 2^53 * b`; returns the scaled denominator and the number
of doublings.  The first argument bounds the number of steps. -/
def scaleDown : Nat → Nat → Nat → Nat × Nat
  | 0, _, b => (b, 0)
  | f + 1, a, b =>
    if a < 2 ^ 53 * b then (b, 0)
    else ((scaleDown f a (2 * b)).1, (scaleDown f a (2 * b)).2 + 1)

/-- Rounds the positive fraction `a / b` to 53 significant bits, ties to even:
the result `(n, e)` stands for `n * 2^e`. -/
def roundNat (a b : Nat) : Nat × Int :=
  if a = 0 ∨ b = 0 then (0, 0) else
  let u := scaleUp (b + 53) a b
  let d := scaleDown u.1 u.1 b
  let n := u.1 / d.1
  let r := u.1 % d.1
  let n1 := if d.1 < 2 * r ∨ (d.1 = 2 * r ∧ n % 2 = 1) then n + 1 else n
  (n1, (d.2 : Int) - (u.2 : Int))

/-- The binary64 value nearest to the exact quotient `a / b` shifted by `2^s`. -/
def round (a : Int) (b : Nat) (s : Int) : F64 :=
  let r := roundNat a.natAbs b
  if r.1 = 0 then ⟨0, 0⟩
  else ⟨if a < 0 then -(r.1 : Int) else (r.1 : Int), r.2 + s⟩

/-- Conversion `float64(z)` of an integer. -/
def ofInt (z : Int) : F64 := round z 1 0

/-- Float addition `x + y`: the exact sum, rounded once. -/
def add (x y : F64) : F64 :=
  let e := min x.e y.e
  round (x.m * 2 ^ (x.e - e).toNat + y.m * 2 ^ (y.e - e).toNat) 1 e

/-- Float multiplication `x * y`: the exact product, rounded once. -/
def mul (x y : F64) : F64 :=
  round (x.m * y.m) 1 (x.e + y.e)

/-- Float division `x / y` for a non-zero divisor: the exact quotient, rounded
once.  (A zero divisor gives an infinity or NaN in Go; the only divisor in this
program is the constant `1e9`.) -/
def div (x y : F64) : F64 :=
  round (if y.m < 0 then -x.m else x.m) y.m.natAbs (x.e - y.e)

/-- The integer part of `x`, fraction discarded (truncation toward zero). -/
def trunc (x : F64) : Int :=
  if 0 ≤ x.e then x.m * 2 ^ x.e.toNat else Int.tdiv x.m (2 ^ (-x.e).toNat)

/-- Conversion `uint32(x)`: the truncated value when it fits; Go leaves the result
implementation-dependent otherwise, so that case is the parameter `oor`. -/
def toUint32 (oor : F64 → Nat) (x : F64) : Nat :=
  if 0 ≤ trunc x ∧ trunc x < 2 ^ 32 then (trunc x).toNat else oor x % 2 ^ 32

/-- The rational number a float stands for. -/
def toRat (x : F64) : ℚ := (x.m : ℚ) * (2 : ℚ) ^ x.e

end float64

/-! ## Go `time` -/

namespace time

/-- Nanoseconds in a second, `time.Second`. -/
def Second : Int := 1000000000

/-- Go `func (d Duration) Seconds() float64`:
`sec := d / Second; nsec := d % Second; return float64(sec) + float64(nsec)/1e9`. -/
def Seconds (d : Int) : float64.F64 :=
  let sec := Int.tdiv d Second
  let nsec := Int.tmod d Second
  float64.add (float64.ofInt sec)
    (float64.div (float64.ofInt nsec) (float64.ofInt 1000000000))

/-- Go `func (t *Ticker) Reset(d Duration)` begins with
`if d <= 0 { panic("non-positive interval for Ticker.Reset") }`: whether the
call panics. -/
def resetPanics (d : Int) : Bool := decide (d ≤ 0)

end time

/-! ## Errors -/

/-- The error values that occur: the sentinel errors of `pion/rtp` and
`pion/webrtc` that the code can return, and `other n` for every error raised
by the transport, the provider or the peer connection. -/
inductive GoError where
  | errAudioLevelOverflow
  | errTooSmall
  | errRFC8285OneByteHeaderIDRange
  | errRFC8285OneByteHeaderSize
  | errRFC8285TwoByteHeaderIDRange
  | errRFC8285TwoByteHeaderSize
  | errRFC3550HeaderIDRange
  | ErrNoPayloaderForCodec
  | other (n : Nat)
deriving DecidableEq, Repr

/-! ## The `pion/rtp` dependency

`pion/rtp` is a library the repository imports; the definitions of this section
follow its implementation of the functions that `localsampletrack.go` calls. -/

namespace rtp

/-- One header extension element, `rtp.Extension`. -/
structure Extension where
  id : Nat
  payload : List Nat
deriving DecidableEq, Repr

/-- The fields of `rtp.Header` (the CSRC list, never set here, is left out). -/
structure Header where
  Version : Nat
  Padding : Bool
  Extension : Bool
  Marker : Bool
  PayloadType : Nat
  SequenceNumber : Nat
  Timestamp : Nat
  SSRC : Nat
  ExtensionProfile : Nat
  Extensions : List rtp.Extension
deriving DecidableEq, Repr

/-- An RTP packet, `rtp.Packet`. -/
structure Packet where
  Header : Header
  Payload : List Nat
deriving DecidableEq, Repr

/-- Profile value of the RFC 8285 one-byte header extension. -/
def extensionProfileOneByte : Nat := 0xBEDE

/-- Profile value of the RFC 8285 two-byte header extension. -/
def extensionProfileTwoByte : Nat := 0x1000

/-- The loop of `SetExtension` that overwrites the payload of the element with
the given id; `none` when no element has it. -/
def updateExtension (id : Nat) (payload : List Nat) :
    List Extension → Option (List Extension)
  | [] => none
  | x :: rest =>
    if x.id = id then some ({ x with payload := payload } :: rest)
    else (updateExtension id payload rest).map (fun r => x :: r)

/-- Library function `func (h *Header) SetExtension(id uint8, payload []byte) error`. -/
def Header.SetExtension (h : Header) (id : Nat) (payload : List Nat) :
    Except GoError Header :=
  if h.Extension then
    let check : Option GoError :=
      if h.ExtensionProfile = extensionProfileOneByte then
        if id < 1 ∨ 14 < id then some .errRFC8285OneByteHeaderIDRange
        else if 16 < payload.length then some .errRFC8285OneByteHeaderSize
        else none
      else if h.ExtensionProfile = extensionProfileTwoByte then
        if id < 1 ∨ 255 < id then some .errRFC8285TwoByteHeaderIDRange
        else if 255 < payload.length then some .errRFC8285TwoByteHeaderSize
        else none
      else
        if id ≠ 0 then some .errRFC3550HeaderIDRange else none
    match check with
    | some e => .error e
    | none =>
      match updateExtension id payload h.Extensions with
      | some exts => .ok { h with Extensions := exts }
      | none => .ok { h with Extensions := h.Extensions ++ [⟨id, payload⟩] }
  else
    let profile :=
      if payload.length ≤ 16 then extensionProfileOneByte
      else if payload.length < 256 then extensionProfileTwoByte
      else h.ExtensionProfile
    .ok { h with Extension := true, ExtensionProfile := profile,
                 Extensions := h.Extensions ++ [⟨id, payload⟩] }

/-- Library function `func (h *Header) GetExtension(id uint8) []byte`; `none` is
the nil result of Go. -/
def Header.GetExtension (h : Header) (id : Nat) : Option (List Nat) :=
  if h.Extension then (h.Extensions.find? (fun x => x.id = id)).map (fun x => x.payload)
  else none

/-- The audio level extension of RFC 6464, `rtp.AudioLevelExtension`. -/
structure AudioLevelExtension where
  Level : Nat
  Voice : Bool
deriving DecidableEq, Repr

/-- Library function `func (a AudioLevelExtension) Marshal() ([]byte, error)`. -/
def AudioLevelExtension.Marshal (a : AudioLevelExtension) : Except GoError (List Nat) :=
  if 127 < a.Level then .error .errAudioLevelOverflow
  else .ok [(if a.Voice then 0x80 else 0x00) ||| a.Level]

/-- Library function `func (a *AudioLevelExtension) Unmarshal(rawData []byte) error`,
returning the decoded extension. -/
def AudioLevelExtension.Unmarshal (rawData : List Nat) : Except GoError AudioLevelExtension :=
  match rawData with
  | [] => .error .errTooSmall
  | b :: _ => .ok { Level := b &&& 0x7F, Voice := b &&& 0x80 ≠ 0 }

/-- The state of `rtp.sequencer`: a `uint16` counter and its roll-over count. -/
structure Sequencer where
  sequenceNumber : Nat
  rollOverCount : Nat
deriving DecidableEq, Repr

/-- Library function `NewRandomSequencer`: starts at
`uint16(random.Intn(math.MaxUint16))`; `r` is the random draw. -/
def NewRandomSequencer (r : Nat) : Sequencer := ⟨r % 65535, 0⟩

/-- Library function `func (s *sequencer) NextSequenceNumber() uint16`:
`s.sequenceNumber++` on a `uint16`, counting a roll-over when it reaches 0. -/
def Sequencer.NextSequenceNumber (s : Sequencer) : Nat × Sequencer :=
  let n := (s.sequenceNumber + 1) % 65536
  (n, ⟨n, if n = 0 then (s.rollOverCount + 1) % 2 ^ 64 else s.rollOverCount⟩)

/-- The payloader types of `pion/rtp/codecs` that `payloaderForCodec` can return. -/
inductive Payloader where
  | H264Payloader
  | OpusPayloader
  | VP8Payloader
  | VP9Payloader
  | G722Payloader
  | G711Payloader
deriving DecidableEq, Repr

/-- The fragmentation methods `Payload(mtu uint16, payload []byte) [][]byte` of
the payloaders: library code, taken as a parameter.  A payloader object may keep
state between calls (the H264 payloader holds back SPS and PPS units and sends
them with a later unit), so the fragments depend on the payloader type, on the
earlier `Payload` calls (mtu and payload) made on the same object, and on the
mtu and payload of this call. -/
abbrev Fragmenter := Payloader → List (Nat × List Nat) → Nat → List Nat → List (List Nat)

/-- The state of `rtp.packetizer`.  Its `Sequencer` field is the same object as
`LocalSampleTrack.sequencer` and is kept there; `extensionNumbers.AbsSendTime`
stays 0 because the program never calls `EnableAbsSendTime`.  The state of the
payloader object is the list `payloaderCalls` of the `Payload` calls made on it
so far (mtu and payload, oldest first); a new payloader has none. -/
structure Packetizer where
  MTU : Nat
  PayloadType : Nat
  SSRC : Nat
  Payloader : Payloader
  Timestamp : Nat
  ClockRate : Nat
  payloaderCalls : List (Nat × List Nat)
deriving DecidableEq, Repr

/-- Library function `NewPacketizer`; `r` is the random draw for the initial
timestamp (`globalMathRandomGenerator.Uint32()`). -/
def NewPacketizer (mtu pt ssrc : Nat) (payloader : Payloader) (clockRate : Nat) (r : Nat) :
    Packetizer :=
  { MTU := mtu, PayloadType := pt, SSRC := ssrc, Payloader := payloader,
    Timestamp := r % 2 ^ 32, ClockRate := clockRate, payloaderCalls := [] }

/-- The loop of `Packetize` over the payload fragments: each packet takes the
next sequence number and the current timestamp; the last one has the marker. -/
def buildPackets (p : Packetizer) : Sequencer → List (List Nat) → List Packet × Sequencer
  | sq, [] => ([], sq)
  | sq, pp :: rest =>
    let packet : Packet :=
      { Header :=
          { Version := 2, Padding := false, Extension := false,
            Marker := rest.isEmpty, PayloadType := p.PayloadType,
            SequenceNumber := sq.NextSequenceNumber.1, Timestamp := p.Timestamp,
            SSRC := p.SSRC, ExtensionProfile := 0, Extensions := [] },
        Payload := pp }
    (packet :: (buildPackets p sq.NextSequenceNumber.2 rest).1,
     (buildPackets p sq.NextSequenceNumber.2 rest).2)

/-- Library function
`func (p *packetizer) Packetize(payload []byte, samples uint32) []*Packet`:
an empty payload returns nil at once; otherwise the payloader splits the
payload for `MTU - 12` (a call that its state records), the packets are built
and `p.Timestamp += samples`. -/
def Packetizer.Packetize (frag : Fragmenter) (p : Packetizer) (sq : Sequencer)
    (payload : List Nat) (samples : Nat) : List Packet × Packetizer × Sequencer :=
  if payload.length = 0 then ([], p, sq)
  else
    let payloads := frag p.Payloader p.payloaderCalls (p.MTU - 12) payload
    let r := buildPackets p sq payloads
    (r.1,
     { p with Timestamp := (p.Timestamp + samples) % 2 ^ 32
              payloaderCalls := p.payloaderCalls ++ [(p.MTU - 12, payload)] },
     r.2)

/-- Library function `func (p *packetizer) SkipSamples(skippedSamples uint32)`:
`p.Timestamp += skippedSamples`. -/
def Packetizer.SkipSamples (p : Packetizer) (skippedSamples : Nat) : Packetizer :=
  { p with Timestamp := (p.Timestamp + skippedSamples) % 2 ^ 32 }

end rtp

/-! ## Go `strings` and the constants of `pion/webrtc` and `pion/sdp` -/

namespace strings

/-- Go `unicode.ToLower` on one rune: ASCII letters directly, every other rune
through the Unicode case tables, which are the parameter `tbl`. -/
def toLowerRune (tbl : Char → Char) (r : Char) : Char :=
  if r.toNat ≤ 127 then
    if 65 ≤ r.toNat ∧ r.toNat ≤ 90 then Char.ofNat (r.toNat + 32) else r
  else tbl r

/-- Go `strings.ToLower` on a string of valid runes: both its ASCII fast path and
`Map(unicode.ToLower, s)` lower-case rune by rune. -/
def ToLower (tbl : Char → Char) (s : List Char) : List Char :=
  s.map (toLowerRune tbl)

end strings

namespace webrtc

/-- Constant `webrtc.MimeTypeH264` of `pion/webrtc`. -/
def MimeTypeH264 : List Char := "video/H264".data
/-- Constant `webrtc.MimeTypeOpus` of `pion/webrtc`. -/
def MimeTypeOpus : List Char := "audio/opus".data
/-- Constant `webrtc.MimeTypeVP8` of `pion/webrtc`. -/
def MimeTypeVP8 : List Char := "video/VP8".data
/-- Constant `webrtc.MimeTypeVP9` of `pion/webrtc`. -/
def MimeTypeVP9 : List Char := "video/VP9".data
/-- Constant `webrtc.MimeTypeG722` of `pion/webrtc`. -/
def MimeTypeG722 : List Char := "audio/G722".data
/-- Constant `webrtc.MimeTypePCMU` of `pion/webrtc`. -/
def MimeTypePCMU : List Char := "audio/PCMU".data
/-- Constant `webrtc.MimeTypePCMA` of `pion/webrtc`. -/
def MimeTypePCMA : List Char := "audio/PCMA".data

/-- The fields of `webrtc.RTPCodecCapability` that the track reads;
`ClockRate` is a `uint32`. -/
structure RTPCodecCapability where
  MimeType : List Char
  ClockRate : Nat
deriving DecidableEq, Repr

/-- Codec parameters as negotiated, `webrtc.RTPCodecParameters`. -/
structure RTPCodecParameters where
  RTPCodecCapability : RTPCodecCapability
  PayloadType : Nat
deriving DecidableEq, Repr

/-- A negotiated header extension, `webrtc.RTPHeaderExtensionParameter`; `ID` is
a Go `int`. -/
structure RTPHeaderExtensionParameter where
  URI : List Char
  ID : Int
deriving DecidableEq, Repr

end webrtc

namespace sdp

/-- Constant `sdp.AudioLevelURI` of `pion/sdp`. -/
def AudioLevelURI : List Char := "urn:ietf:params:rtp-hdrext:ssrc-audio-level".data

end sdp

/-! ## Package `lksdk`: `localsampletrack.go` -/

namespace lksdk

open float64 (F64)

/-- Constant `rtpOutboundMTU`. -/
def rtpOutboundMTU : Nat := 1200

/-- Options of one write, `SampleWriteOptions`; `AudioLevel` is a `*uint8`. -/
structure SampleWriteOptions where
  AudioLevel : Option Nat
deriving DecidableEq, Repr

/-- The fields of `media.Sample` that the track reads: `Duration` in nanoseconds
(`int64`), `PrevDroppedPackets` a `uint16`. -/
structure Sample where
  Data : List Nat
  Duration : Int
  PrevDroppedPackets : Nat
deriving DecidableEq, Repr

/-- Calls that leave the track: provider hooks, goroutines started, cancel
functions invoked, and a Go run-time panic. -/
inductive Effect where
  | providerOnBind (provider : Nat)
  | providerOnUnbind (provider : Nat)
  | goWriteWorker (provider : Nat) (onComplete : Option Nat)
  | goCallback (f : Nat)
  | cancel (handle : Nat)
  | rtpTrackUnbind
  | goPanic
deriving DecidableEq, Repr

/-- The mutable fields of `LocalSampleTrack`.  Providers, callbacks and cancel
functions are named by numbers (`none` is nil); `bound` is the `uint32` flag.
The embedded `rtpTrack` belongs to `pion/webrtc`: its `Bind`, `Unbind` and
`WriteRTP` results are inputs of the operations below. -/
structure LocalSampleTrack where
  packetizer : Option rtp.Packetizer
  sequencer : Option rtp.Sequencer
  clockRate : F64
  bound : Nat
  audioLevelID : Nat
  cancelWrite : Option Nat
  Provider : Option Nat
  onBind : Option Nat
  onUnbind : Option Nat
  onWriteComplete : Option Nat
deriving DecidableEq, Repr

/-- The track returned by `NewLocalSampleTrack`: only `rtpTrack` is set. -/
def NewLocalSampleTrack : LocalSampleTrack :=
  { packetizer := none, sequencer := none, clockRate := ⟨0, 0⟩, bound := 0,
    audioLevelID := 0, cancelWrite := none, Provider := none, onBind := none,
    onUnbind := none, onWriteComplete := none }

/-- Method `IsBound`: `atomic.LoadUint32(&s.bound) == 1`. -/
def LocalSampleTrack.IsBound (s : LocalSampleTrack) : Bool := s.bound == 1

/-- Function `payloaderForCodec`: a switch on the lower-cased MIME type; the result is the
pair (payloader, error) with `none` for nil. -/
def payloaderForCodec (tbl : Char → Char) (codec : webrtc.RTPCodecCapability) :
    Option rtp.Payloader × Option GoError :=
  let mime := strings.ToLower tbl codec.MimeType
  if mime = strings.ToLower tbl webrtc.MimeTypeH264 then (some .H264Payloader, none)
  else if mime = strings.ToLower tbl webrtc.MimeTypeOpus then (some .OpusPayloader, none)
  else if mime = strings.ToLower tbl webrtc.MimeTypeVP8 then (some .VP8Payloader, none)
  else if mime = strings.ToLower tbl webrtc.MimeTypeVP9 then (some .VP9Payloader, none)
  else if mime = strings.ToLower tbl webrtc.MimeTypeG722 then (some .G722Payloader, none)
  else if mime = strings.ToLower tbl webrtc.MimeTypePCMU
      ∨ mime = strings.ToLower tbl webrtc.MimeTypePCMA then (some .G711Payloader, none)
  else (none, some .ErrNoPayloaderForCodec)

/-- What a `webrtc.TrackLocalContext` and the environment give to one `Bind`
call: the result of `s.rtpTrack.Bind(t)`, `t.HeaderExtensions()`, the random
draws of `NewRandomSequencer` and `NewPacketizer`, and the result of the
`OnBind` hook of the provider. -/
structure BindInput where
  rtpBind : webrtc.RTPCodecParameters × Option GoError
  HeaderExtensions : List webrtc.RTPHeaderExtensionParameter
  seqDraw : Nat
  tsDraw : Nat
  providerOnBind : Option GoError

/-- Result of a lifecycle call: the track afterwards, the calls made, and the
returned error. -/
structure CallResult where
  track : LocalSampleTrack
  effects : List Effect
  err : Option GoError
deriving DecidableEq, Repr

/-- The loop of `Bind` over the header extensions: the first extension with the
audio-level URI sets `audioLevelID = uint8(ext.ID)`; without one the field keeps
its value. -/
def findAudioLevelID (current : Nat) : List webrtc.RTPHeaderExtensionParameter → Nat
  | [] => current
  | ext :: rest =>
    if ext.URI = sdp.AudioLevelURI then (ext.ID % 256).toNat
    else findAudioLevelID current rest

/-- Method `Bind`.  (`payloaderForCodec` never returns a nil payloader together
with a nil error; that case leaves the track as it is.) -/
def LocalSampleTrack.Bind (tbl : Char → Char) (s : LocalSampleTrack) (t : BindInput) :
    CallResult :=
  match t.rtpBind.2 with
  | some e => ⟨s, [], some e⟩
  | none =>
    let codec := t.rtpBind.1
    match payloaderForCodec tbl codec.RTPCodecCapability with
    | (_, some e) => ⟨s, [], some e⟩
    | (none, none) => ⟨s, [], none⟩
    | (some payloader, none) =>
      let s1 : LocalSampleTrack :=
        { s with
          audioLevelID := findAudioLevelID s.audioLevelID t.HeaderExtensions
          sequencer := some (rtp.NewRandomSequencer t.seqDraw)
          packetizer := some (rtp.NewPacketizer rtpOutboundMTU 0 0 payloader
            codec.RTPCodecCapability.ClockRate t.tsDraw)
          clockRate := float64.ofInt codec.RTPCodecCapability.ClockRate
          bound := 1 }
      let providerCalls : List Effect :=
        match s.Provider with
        | some p => [.providerOnBind p, .goWriteWorker p s.onWriteComplete]
        | none => []
      let err := match s.Provider with
        | some _ => t.providerOnBind
        | none => none
      let callbacks : List Effect :=
        match s.onBind with
        | some f => [.goCallback f]
        | none => []
      ⟨s1, providerCalls ++ callbacks, err⟩

/-- Method `Unbind`; the inputs are the results of the `OnUnbind` hook of the
provider and of
`s.rtpTrack.Unbind(t)`. -/
def LocalSampleTrack.Unbind (s : LocalSampleTrack) (providerOnUnbind rtpUnbind : Option GoError) :
    CallResult :=
  let s1 : LocalSampleTrack := { s with bound := 0 }
  let hook : List Effect := match s.Provider with
    | some p => [.providerOnUnbind p]
    | none => []
  let err := match s.Provider with
    | some _ => providerOnUnbind
    | none => none
  let cancel : List Effect := match s.cancelWrite with
    | some h => [.cancel h]
    | none => []
  let callback : List Effect := match s.onUnbind with
    | some f => [.goCallback f]
    | none => []
  let effects := hook ++ cancel ++ callback ++ [.rtpTrackUnbind]
  match rtpUnbind with
  | some e => ⟨s1, effects, some e⟩
  | none => ⟨s1, effects, err⟩

/-- Method `StartWrite`; the inputs after `onComplete` are the results of
`OnUnbind` of the old provider and of `OnBind` of the new provider.  Calling `OnBind` on a
nil provider is a nil dereference, recorded as a panic. -/
def LocalSampleTrack.StartWrite (s : LocalSampleTrack) (provider onComplete : Option Nat)
    (oldOnUnbind newOnBind : Option GoError) : CallResult :=
  if s.Provider = provider then ⟨s, [], none⟩
  else
    let done : LocalSampleTrack := { s with Provider := provider, onWriteComplete := onComplete }
    if s.IsBound then
      let unhook : List Effect := match s.Provider with
        | some p => [.providerOnUnbind p]
        | none => []
      let unhookErr := match s.Provider with
        | some _ => oldOnUnbind
        | none => none
      match unhookErr with
      | some e => ⟨s, unhook, some e⟩
      | none =>
        match provider with
        | none => ⟨s, unhook ++ [.goPanic], none⟩
        | some p =>
          match newOnBind with
          | some e => ⟨s, unhook ++ [.providerOnBind p], some e⟩
          | none => ⟨done, unhook ++ [.providerOnBind p, .goWriteWorker p onComplete], none⟩
    else ⟨done, [], none⟩

/-- Method `OnBind` (the setter of the callback). -/
def LocalSampleTrack.OnBind (s : LocalSampleTrack) (f : Option Nat) : LocalSampleTrack :=
  { s with onBind := f }

/-- Method `OnUnbind` (the setter of the callback). -/
def LocalSampleTrack.OnUnbind (s : LocalSampleTrack) (f : Option Nat) : LocalSampleTrack :=
  { s with onUnbind := f }

/-- What `WriteSample` needs from outside: the fragmentation of the payloaders,
the result of `s.rtpTrack.WriteRTP` for a packet, and the result the platform
gives for an out-of-range `uint32(float64)` conversion. -/
structure WriteEnv where
  frag : rtp.Fragmenter
  WriteRTP : rtp.Packet → Option GoError
  oor : F64 → Nat

/-- The expression `uint32(sample.Duration.Seconds() * clockRate)`. -/
def sampleCount (oor : F64 → Nat) (clockRate : F64) (duration : Int) : Nat :=
  float64.toUint32 oor (float64.mul (time.Seconds duration) clockRate)

/-- The loop `for i := uint16(0); i < sample.PrevDroppedPackets; i++` calling
`s.sequencer.NextSequenceNumber()`. -/
def skipSequence : Nat → rtp.Sequencer → rtp.Sequencer
  | 0, sq => sq
  | k + 1, sq => skipSequence k sq.NextSequenceNumber.2

/-- The extension step of the packet loop: when an audio level identifier is
set and the options carry a level, marshal the level and set it on the header. -/
def decorate (audioLevelID : Nat) (opts : Option SampleWriteOptions) (p : rtp.Packet) :
    Except GoError rtp.Packet :=
  match opts with
  | some ⟨some level⟩ =>
    if audioLevelID ≠ 0 then
      match rtp.AudioLevelExtension.Marshal { Level := level, Voice := false } with
      | .error e => .error e
      | .ok data =>
        match p.Header.SetExtension audioLevelID data with
        | .error e => .error e
        | .ok h => .ok { p with Header := h }
    else .ok p
  | _ => .ok p

/-- The packet loop of `WriteSample`: the packets passed to `WriteRTP`, in order,
and `writeErrs`.  A packet whose extension step fails is skipped (`continue`). -/
def writePackets (WriteRTP : rtp.Packet → Option GoError) (audioLevelID : Nat)
    (opts : Option SampleWriteOptions) : List rtp.Packet → List rtp.Packet × List GoError
  | [] => ([], [])
  | p :: rest =>
    let r := writePackets WriteRTP audioLevelID opts rest
    match decorate audioLevelID opts p with
    | .error e => (r.1, e :: r.2)
    | .ok q =>
      match WriteRTP q with
      | some e => (q :: r.1, e :: r.2)
      | none => (q :: r.1, r.2)

/-- Result of `WriteSample`: the track afterwards, the packets produced by
`Packetize`, the packets passed to `s.rtpTrack.WriteRTP`, and the returned error. -/
structure WriteResult where
  track : LocalSampleTrack
  packets : List rtp.Packet
  written : List rtp.Packet
  err : Option GoError
deriving DecidableEq, Repr

/-- Method `WriteSample`.  (`Bind` sets the packetizer and the sequencer together, so a
packetizer without a sequencer does not occur; it is treated like no packetizer.) -/
def LocalSampleTrack.WriteSample (env : WriteEnv) (s : LocalSampleTrack) (sample : Sample)
    (opts : Option SampleWriteOptions) : WriteResult :=
  match s.packetizer, s.sequencer with
  | some p, some sq =>
    let sq1 := skipSequence sample.PrevDroppedPackets sq
    let samples := sampleCount env.oor s.clockRate sample.Duration
    let p1 := if 0 < sample.PrevDroppedPackets
      then p.SkipSamples ((samples * sample.PrevDroppedPackets) % 2 ^ 32) else p
    let r := p1.Packetize env.frag sq1 sample.Data samples
    let w := writePackets env.WriteRTP s.audioLevelID opts r.1
    { track := { s with packetizer := some r.2.1, sequencer := some r.2.2 },
      packets := r.1, written := w.1, err := w.2.head? }
  | _, _ => { track := s, packets := [], written := [], err := none }

/-- The prologue of `writeWorker`: cancel the context of the previous worker and
install the cancel function `h` of the new one. -/
def LocalSampleTrack.writeWorkerBegin (s : LocalSampleTrack) (h : Nat) :
    LocalSampleTrack × List Effect :=
  ({ s with cancelWrite := some h },
   match s.cancelWrite with
   | some old => [.cancel old]
   | none => [])

/-- Result of `provider.NextSample()`. -/
inductive NextResult where
  | sample (s : Sample)
  | eof
  | err (e : GoError)
deriving DecidableEq, Repr

/-- The two cases of the `select` in `writeWorker`. -/
inductive Branch where
  | tick
  | done
deriving DecidableEq, Repr

/-- What the environment gives to one iteration of the loop of `writeWorker`:
the answer of the provider, the audio level it reports, the error returned by
`s.WriteSample`, the reading of `time.Now()` after the write, and the state of
the two channels when the `select` runs (`pick` is the choice of Go when both are
ready, and the channel that becomes ready first when neither is).
`cancelled` records whether the context was already cancelled when the
iteration began; the loop never reads it. -/
structure Iteration where
  next : NextResult
  level : Nat
  writeErr : Option GoError
  now : Int
  cancelled : Bool
  doneReady : Bool
  tickReady : Bool
  pick : Branch
deriving DecidableEq, Repr

/-- The case the `select` takes. -/
def selectBranch (it : Iteration) : Branch :=
  if it.doneReady && !it.tickReady then .done
  else if it.tickReady && !it.doneReady then .tick
  else it.pick

/-- Observable steps of a worker: a call of `s.WriteSample` (with the flag whether
the context was already cancelled when that iteration began), the target time and
sleep duration computed after it, and a call of `ticker.Reset`. -/
inductive Event where
  | writeSample (sample : Sample) (opts : Option SampleWriteOptions) (cancelled : Bool)
  | schedule (nextSampleTime sleepDuration : Int)
  | reset (d : Int)
deriving DecidableEq, Repr

/-- How a worker run ends; `running` means the inputs given so far are used up
and the worker is about to ask the provider again. -/
inductive WorkerExit where
  | eof
  | providerError (e : GoError)
  | writeError (e : GoError)
  | cancelled
  | resetPanic
  | running
deriving DecidableEq, Repr

/-- The `for` loop of `writeWorker`, from the target time `nextSampleTime`.
Times and durations are integers in nanoseconds; `ticker.Reset(d)` panics for
`d <= 0`, which ends the run. -/
def writeLoop (isAudioProvider : Bool) : Int → List Iteration → List Event × WorkerExit
  | _, [] => ([], .running)
  | nextSampleTime, it :: rest =>
    match it.next with
    | .eof => ([], .eof)
    | .err e => ([], .providerError e)
    | .sample sample =>
      let opts : Option SampleWriteOptions :=
        if isAudioProvider then some ⟨some it.level⟩ else none
      let call := Event.writeSample sample opts it.cancelled
      match it.writeErr with
      | some e => ([call], .writeError e)
      | none =>
        let target := nextSampleTime + sample.Duration
        let sleepDuration := target - it.now
        if sleepDuration < 0 then
          (call :: .schedule target sleepDuration :: (writeLoop isAudioProvider target rest).1,
           (writeLoop isAudioProvider target rest).2)
        else if time.resetPanics sleepDuration then
          ([call, .schedule target sleepDuration, .reset sleepDuration], .resetPanic)
        else
          match selectBranch it with
          | .tick =>
            (call :: .schedule target sleepDuration :: .reset sleepDuration ::
               (writeLoop isAudioProvider target rest).1,
             (writeLoop isAudioProvider target rest).2)
          | .done =>
            ([call, .schedule target sleepDuration, .reset sleepDuration], .cancelled)

/-- Result of a worker run: its events, how it ended, and how many times the
deferred `onComplete` ran. -/
structure WorkerResult where
  events : List Event
  exit : WorkerExit
  completions : Nat
deriving DecidableEq, Repr

/-- Method `writeWorker` after its prologue: `defer onComplete()` when the callback is
set, `nextSampleTime := time.Now()` (the reading `start`), then the loop. -/
def writeWorker (isAudioProvider : Bool) (onComplete : Option Nat) (start : Int)
    (script : List Iteration) : WorkerResult :=
  let r := writeLoop isAudioProvider start script
  { events := r.1, exit := r.2,
    completions := if onComplete.isSome ∧ r.2 ≠ .running then 1 else 0 }

/-- The samples passed to `s.WriteSample`, in call order. -/
def writtenSamples : List Event → List Sample
  | [] => []
  | .writeSample s _ _ :: rest => s :: writtenSamples rest
  | _ :: rest => writtenSamples rest

end lksdk

/-! ## Definitions used to state the properties -/

namespace lksdk

/-- The lower-cased MIME types that `payloaderForCodec` accepts. -/
def supportedMimeTypes : List (List Char) :=
  ["video/h264".data, "audio/opus".data, "video/vp8".data, "video/vp9".data,
   "audio/g722".data, "audio/pcmu".data, "audio/pcma".data]

/-- The switch of `payloaderForCodec` written on the lower-cased MIME type, with
the lower-cased constants evaluated. -/
def payloaderSwitch (mime : List Char) : Option rtp.Payloader × Option GoError :=
  if mime = "video/h264".data then (some .H264Payloader, none)
  else if mime = "audio/opus".data then (some .OpusPayloader, none)
  else if mime = "video/vp8".data then (some .VP8Payloader, none)
  else if mime = "video/vp9".data then (some .VP9Payloader, none)
  else if mime = "audio/g722".data then (some .G722Payloader, none)
  else if mime = "audio/pcmu".data ∨ mime = "audio/pcma".data then (some .G711Payloader, none)
  else (none, some .ErrNoPayloaderForCodec)

/-- The error of one packet in the loop of `WriteSample`: the error of its
extension step, or else the error of its transport write; `none` when the
packet does not fail. -/
def packetError (WriteRTP : rtp.Packet → Option GoError) (audioLevelID : Nat)
    (opts : Option SampleWriteOptions) (p : rtp.Packet) : Option GoError :=
  match decorate audioLevelID opts p with
  | .error e => some e
  | .ok q => WriteRTP q

/-- The packet after its extension step, when that step succeeds. -/
def decorated (audioLevelID : Nat) (opts : Option SampleWriteOptions) (p : rtp.Packet) :
    Option rtp.Packet :=
  match decorate audioLevelID opts p with
  | .error _ => none
  | .ok q => some q

/-- A sequence of `WriteSample` calls on a track: the packets handed to
`s.rtpTrack.WriteRTP`, in order. -/
def writeAll (env : WriteEnv) :
    LocalSampleTrack → List (Sample × Option SampleWriteOptions) → List rtp.Packet
  | _, [] => []
  | s, c :: rest =>
    (s.WriteSample env c.1 c.2).written ++ writeAll env (s.WriteSample env c.1 c.2).track rest

/-- The sequence numbers the claim describes, for calls given as
(dropped count `k`, number of fragments `m`, whether the packets are handed
over): from the counter value `c`, a call uses `c+k+1, ..., c+k+m` modulo `2^16`
and leaves the counter at `c+k+m`. -/
def expectedSeqs : Nat → List (Nat × Nat × Bool) → List Nat
  | _, [] => []
  | c, (k, m, handed) :: rest =>
    (if handed then (List.range m).map (fun i => (c + k + 1 + i) % 65536) else []) ++
      expectedSeqs ((c + k + m) % 65536) rest

/-- Number of fragments `Packetize` makes of a payload: none for an empty
payload, else what the payloader returns for `MTU - 12`. -/
def fragmentCount (frag : rtp.Fragmenter) (p : rtp.Packetizer) (data : List Nat) : Nat :=
  if data.length = 0 then 0
  else (frag p.Payloader p.payloaderCalls (p.MTU - 12) data).length

/-- Whether the extension step of a write succeeds: it fails only when an audio
level identifier is set and the supplied level exceeds 127. -/
def extensionOk (audioLevelID : Nat) (opts : Option SampleWriteOptions) : Bool :=
  match opts with
  | some ⟨some level⟩ => audioLevelID = 0 ∨ level ≤ 127
  | _ => true

/-- The payloader state of a packetizer after `Packetize` of a payload: an empty
payload does not reach the payloader, any other payload is one more call. -/
def afterPayload (p : rtp.Packetizer) (data : List Nat) : rtp.Packetizer :=
  if data.length = 0 then p
  else { p with payloaderCalls := p.payloaderCalls ++ [(p.MTU - 12, data)] }

/-- The calls of a run as the claim describes them: for each `WriteSample` call
its dropped count `k`, the number `m` of fragments the payloader makes of its
payload at that point of the run, and whether its packets are handed over. -/
def callShapes (frag : rtp.Fragmenter) (audioLevelID : Nat) :
    rtp.Packetizer → List (Sample × Option SampleWriteOptions) → List (Nat × Nat × Bool)
  | _, [] => []
  | p, c :: rest =>
    (c.1.PrevDroppedPackets, fragmentCount frag p c.1.Data, extensionOk audioLevelID c.2) ::
      callShapes frag audioLevelID (afterPayload p c.1.Data) rest

/-- Calls on a track, for sequences of operations. -/
inductive Call where
  | bind (t : BindInput)
  | unbind (providerOnUnbind rtpUnbind : Option GoError)
  | startWrite (provider onComplete : Option Nat) (oldOnUnbind newOnBind : Option GoError)
  | onBind (f : Option Nat)
  | onUnbind (f : Option Nat)
  | writeSample (sample : Sample) (opts : Option SampleWriteOptions)
  | workerBegin (handle : Nat)

/-- Whether a call is a `Bind`. -/
def Call.isBind : Call → Bool
  | .bind _ => true
  | _ => false

/-- The track after one call. -/
def step (tbl : Char → Char) (env : WriteEnv) (s : LocalSampleTrack) : Call → LocalSampleTrack
  | .bind t => (s.Bind tbl t).track
  | .unbind e1 e2 => (s.Unbind e1 e2).track
  | .startWrite p f e1 e2 => (s.StartWrite p f e1 e2).track
  | .onBind f => s.OnBind f
  | .onUnbind f => s.OnUnbind f
  | .writeSample sample opts => (s.WriteSample env sample opts).track
  | .workerBegin h => (s.writeWorkerBegin h).1

/-- The track reached from a new track by a sequence of calls. -/
def run (tbl : Char → Char) (env : WriteEnv) (calls : List Call) : LocalSampleTrack :=
  calls.foldl (step tbl env) NewLocalSampleTrack

/-- The target time of the worker after the given iterations: the start time
plus the durations of the samples written. -/
def targetAfter : Int → List Iteration → Int
  | t, [] => t
  | t, it :: rest =>
    match it.next with
    | .sample s => targetAfter (t + s.Duration) rest
    | _ => targetAfter t rest

/-- Rounding to the nearest integer (halves upward) of a non-negative rational. -/
def nearest (x : ℚ) : Int := ⌊x + 1 / 2⌋

/-! ### Concrete inputs -/

/-- An environment in which every payload is one fragment and the transport
accepts every packet. -/
def demoEnv : WriteEnv :=
  { frag := fun _ _ _ payload => [payload], WriteRTP := fun _ => none, oor := fun _ => 0 }

/-- An environment with a payloader that keeps state: the first payload it is
given makes one fragment, every later payload makes two. -/
def statefulEnv : WriteEnv :=
  { frag := fun _ calls _ payload => if calls.length = 0 then [payload] else [payload, payload],
    WriteRTP := fun _ => none, oor := fun _ => 0 }

/-- A bind of an Opus track at 48 kHz that negotiates the audio-level extension
with identifier 1; the sequencer starts at 65534. -/
def demoBind : BindInput :=
  { rtpBind := (⟨⟨"audio/opus".data, 48000⟩, 111⟩, none),
    HeaderExtensions := [⟨sdp.AudioLevelURI, 1⟩],
    seqDraw := 65534, tsDraw := 1000, providerOnBind := none }

/-- The new track after `demoBind`. -/
def demoTrack : LocalSampleTrack := (NewLocalSampleTrack.Bind (fun c => c) demoBind).track

/-- A 20 ms sample of three bytes. -/
def demoSample : Sample := { Data := [1, 2, 3], Duration := 20000000, PrevDroppedPackets := 0 }

/-- A 20 ms sample without payload. -/
def emptySample : Sample := { Data := [], Duration := 20000000, PrevDroppedPackets := 0 }

/-- The demo track with its sequencer at 7. -/
def lowTrack : LocalSampleTrack :=
  (NewLocalSampleTrack.Bind (fun c => c) { demoBind with seqDraw := 7 }).track

/-- Two writes: the demo sample, then a sample that declares two dropped packets. -/
def demoCalls : List (Sample × Option SampleWriteOptions) :=
  [(demoSample, none), ({ demoSample with PrevDroppedPackets := 2 }, none)]

/-- An iteration in which the provider returns the demo sample, the write
succeeds, the clock reads `now`, and neither channel is ready before the tick. -/
def demoIteration (now : Int) (cancelled : Bool) : Iteration :=
  { next := .sample demoSample, level := 0, writeErr := none, now := now,
    cancelled := cancelled, doneReady := cancelled, tickReady := false, pick := .tick }

/-- The iteration in which the provider reports the end of the stream. -/
def eofIteration (cancelled : Bool) : Iteration :=
  { next := .eof, level := 0, writeErr := none, now := 0,
    cancelled := cancelled, doneReady := cancelled, tickReady := false, pick := .tick }

/-- The loop goes through all the given iterations from the target time `t`:
each one gets a sample, writes it without error, and either is behind schedule
(negative interval) or waits a positive interval that ends with the tick. -/
def proceeds : Int → List Iteration → Prop
  | _, [] => True
  | t, it :: rest =>
    ∃ smp, it.next = .sample smp ∧ it.writeErr = none ∧
      (t + smp.Duration - it.now < 0 ∨
        (0 < t + smp.Duration - it.now ∧ selectBranch it = .tick)) ∧
      proceeds (t + smp.Duration) rest

/-- The samples a provider returns in the given iterations. -/
def providedSamples : List Iteration → List Sample
  | [] => []
  | it :: rest =>
    match it.next with
    | .sample s => s :: providedSamples rest
    | _ => providedSamples rest

/-- Calls made on the demo track after its bind: two writes, which take the
sequencer from 65534 through its wrap, and a worker start. -/
def demoHistory : List Call :=
  [.writeSample demoSample (some ⟨some 5⟩), .writeSample demoSample none, .workerBegin 3]

end lksdk

/-! ## Theorems -/

namespace lksdk

theorem toLower_constants (tbl : Char → Char) :
    strings.ToLower tbl webrtc.MimeTypeH264 = "video/h264".data ∧
    strings.ToLower tbl webrtc.MimeTypeOpus = "audio/opus".data ∧
    strings.ToLower tbl webrtc.MimeTypeVP8 = "video/vp8".data ∧
    strings.ToLower tbl webrtc.MimeTypeVP9 = "video/vp9".data ∧
    strings.ToLower tbl webrtc.MimeTypeG722 = "audio/g722".data ∧
    strings.ToLower tbl webrtc.MimeTypePCMU = "audio/pcmu".data ∧
    strings.ToLower tbl webrtc.MimeTypePCMA = "audio/pcma".data :=
  ⟨rfl, rfl, rfl, rfl, rfl, rfl, rfl⟩

theorem payloaderForCodec_eq_switch (tbl : Char → Char) (c : webrtc.RTPCodecCapability) :
    payloaderForCodec tbl c = payloaderSwitch (strings.ToLower tbl c.MimeType) := by
  obtain ⟨h1, h2, h3, h4, h5, h6, h7⟩ := toLower_constants tbl
  simp only [payloaderForCodec, payloaderSwitch, h1, h2, h3, h4, h5, h6, h7]

theorem switch_error_iff (m a1 a2 a3 a4 a5 a6 a7 : List Char)
    (x1 x2 x3 x4 x5 x6 : rtp.Payloader) :
    ((if m = a1 then (some x1, none)
      else if m = a2 then (some x2, none)
      else if m = a3 then (some x3, none)
      else if m = a4 then (some x4, none)
      else if m = a5 then (some x5, none)
      else if m = a6 ∨ m = a7 then (some x6, none)
      else (none, some GoError.ErrNoPayloaderForCodec) :
        Option rtp.Payloader × Option GoError) = (none, some GoError.ErrNoPayloaderForCodec)
      ↔ m ∉ [a1, a2, a3, a4, a5, a6, a7]) ∧
    ((if m = a1 then (some x1, none)
      else if m = a2 then (some x2, none)
      else if m = a3 then (some x3, none)
      else if m = a4 then (some x4, none)
      else if m = a5 then (some x5, none)
      else if m = a6 ∨ m = a7 then (some x6, none)
      else (none, some GoError.ErrNoPayloaderForCodec) :
        Option rtp.Payloader × Option GoError).2 = none
      ↔ m ∈ [a1, a2, a3, a4, a5, a6, a7]) := by
  constructor <;> split_ifs <;> simp_all

/-- C6: `payloaderForCodec` depends on the codec only through the lower-cased MIME
type; it returns `ErrNoPayloaderForCodec` with a nil payloader exactly when that
string is none of the seven supported types, and otherwise a nil error with the
payloader of the codec family (G711 for both PCMU and PCMA). -/
theorem payloaderForCodec_mapping (tbl : Char → Char) (codec : webrtc.RTPCodecCapability) :
    (payloaderForCodec tbl codec = (none, some GoError.ErrNoPayloaderForCodec) ↔
      strings.ToLower tbl codec.MimeType ∉ supportedMimeTypes) ∧
    ((payloaderForCodec tbl codec).2 = none ↔
      strings.ToLower tbl codec.MimeType ∈ supportedMimeTypes) ∧
    (strings.ToLower tbl codec.MimeType = "video/h264".data →
      payloaderForCodec tbl codec = (some rtp.Payloader.H264Payloader, none)) ∧
    (strings.ToLower tbl codec.MimeType = "audio/opus".data →
      payloaderForCodec tbl codec = (some rtp.Payloader.OpusPayloader, none)) ∧
    (strings.ToLower tbl codec.MimeType = "video/vp8".data →
      payloaderForCodec tbl codec = (some rtp.Payloader.VP8Payloader, none)) ∧
    (strings.ToLower tbl codec.MimeType = "video/vp9".data →
      payloaderForCodec tbl codec = (some rtp.Payloader.VP9Payloader, none)) ∧
    (strings.ToLower tbl codec.MimeType = "audio/g722".data →
      payloaderForCodec tbl codec = (some rtp.Payloader.G722Payloader, none)) ∧
    (strings.ToLower tbl codec.MimeType = "audio/pcmu".data →
      payloaderForCodec tbl codec = (some rtp.Payloader.G711Payloader, none)) ∧
    (strings.ToLower tbl codec.MimeType = "audio/pcma".data →
      payloaderForCodec tbl codec = (some rtp.Payloader.G711Payloader, none)) ∧
    (∀ other : webrtc.RTPCodecCapability,
      strings.ToLower tbl other.MimeType = strings.ToLower tbl codec.MimeType →
      payloaderForCodec tbl other = payloaderForCodec tbl codec) := by
  refine ⟨?_, ?_, ?_, ?_, ?_, ?_, ?_, ?_, ?_, ?_⟩
  · rw [payloaderForCodec_eq_switch]
    exact (switch_error_iff _ _ _ _ _ _ _ _ _ _ _ _ _ _).1
  · rw [payloaderForCodec_eq_switch]
    exact (switch_error_iff _ _ _ _ _ _ _ _ _ _ _ _ _ _).2
  · intro h; rw [payloaderForCodec_eq_switch, h]; rfl
  · intro h; rw [payloaderForCodec_eq_switch, h]; rfl
  · intro h; rw [payloaderForCodec_eq_switch, h]; rfl
  · intro h; rw [payloaderForCodec_eq_switch, h]; rfl
  · intro h; rw [payloaderForCodec_eq_switch, h]; rfl
  · intro h; rw [payloaderForCodec_eq_switch, h]; rfl
  · intro h; rw [payloaderForCodec_eq_switch, h]; rfl
  · intro other h; rw [payloaderForCodec_eq_switch, payloaderForCodec_eq_switch, h]

end lksdk

namespace lksdk

theorem writeSample_bound_eq (env : WriteEnv) (s : LocalSampleTrack) (p : rtp.Packetizer)
    (sq : rtp.Sequencer) (sample : Sample) (opts : Option SampleWriteOptions)
    (hp : s.packetizer = some p) (hsq : s.sequencer = some sq) :
    s.WriteSample env sample opts =
      (let sq1 := skipSequence sample.PrevDroppedPackets sq
       let samples := sampleCount env.oor s.clockRate sample.Duration
       let p1 := if 0 < sample.PrevDroppedPackets
         then p.SkipSamples ((samples * sample.PrevDroppedPackets) % 2 ^ 32) else p
       let r := p1.Packetize env.frag sq1 sample.Data samples
       let w := writePackets env.WriteRTP s.audioLevelID opts r.1
       { track := { s with packetizer := some r.2.1, sequencer := some r.2.2 },
         packets := r.1, written := w.1, err := w.2.head? }) := by
  simp only [LocalSampleTrack.WriteSample, hp, hsq]

/-- C2 (amended): on a bound track one `WriteSample` call with `k` declared
dropped packets and timestamp increment `n` moves the timestamp of the packetizer by
`(k+1) * n` modulo `2^32` when the payload is not empty, and by `k * n` modulo
`2^32` when the payload is empty (`Packetize` returns before advancing). -/
theorem writeSample_timestamp (env : WriteEnv) (s : LocalSampleTrack) (p : rtp.Packetizer)
    (sq : rtp.Sequencer) (sample : Sample) (opts : Option SampleWriteOptions)
    (hp : s.packetizer = some p) (hsq : s.sequencer = some sq)
    (hts : p.Timestamp < 2 ^ 32) :
    ∃ q, (s.WriteSample env sample opts).track.packetizer = some q ∧
      q.Timestamp =
        if sample.Data = [] then
          (p.Timestamp + sample.PrevDroppedPackets *
            sampleCount env.oor s.clockRate sample.Duration) % 2 ^ 32
        else
          (p.Timestamp + (sample.PrevDroppedPackets + 1) *
            sampleCount env.oor s.clockRate sample.Duration) % 2 ^ 32 := by
  rw [writeSample_bound_eq env s p sq sample opts hp hsq]
  refine ⟨_, rfl, ?_⟩
  generalize sampleCount env.oor s.clockRate sample.Duration = n
  generalize sample.PrevDroppedPackets = k
  have hlen : sample.Data = [] ↔ sample.Data.length = 0 := List.length_eq_zero.symm
  by_cases hk0 : 0 < k
  · have hmul : (k + 1) * n = n * k + n := by ring
    have hmul2 : k * n = n * k := by ring
    rw [hmul, hmul2]
    generalize n * k = x
    by_cases hd : sample.Data = []
    · simp only [hd, rtp.Packetizer.Packetize, List.length_nil, if_true, hk0,
        rtp.Packetizer.SkipSamples]
      omega
    · simp only [hd, rtp.Packetizer.Packetize, hlen.not.mp hd, if_false, hk0, if_true,
        rtp.Packetizer.SkipSamples]
      omega
  · have hk : k = 0 := by omega
    subst hk
    by_cases hd : sample.Data = []
    · simp only [hd, rtp.Packetizer.Packetize, List.length_nil, if_true, lt_irrefl, if_false,
        Nat.zero_mul, Nat.add_zero]
      omega
    · simp only [hd, rtp.Packetizer.Packetize, hlen.not.mp hd, if_false, lt_irrefl,
        Nat.zero_add, Nat.one_mul]

/-- Witness of `writeSample_timestamp`: the three-byte sample on the demo track. -/
theorem writeSample_timestamp_witness :
    ∃ q, (demoTrack.WriteSample demoEnv demoSample none).track.packetizer = some q ∧
      q.Timestamp =
        if demoSample.Data = [] then
          (1000 + demoSample.PrevDroppedPackets *
            sampleCount demoEnv.oor demoTrack.clockRate demoSample.Duration) % 2 ^ 32
        else
          (1000 + (demoSample.PrevDroppedPackets + 1) *
            sampleCount demoEnv.oor demoTrack.clockRate demoSample.Duration) % 2 ^ 32 :=
  writeSample_timestamp demoEnv demoTrack ⟨1200, 0, 0, .OpusPayloader, 1000, 48000, []⟩
    ⟨65534, 0⟩ demoSample none (by decide) (by decide) (by decide)

/-- C2 fails for an empty payload: on the demo track (timestamp 1000, increment
960 for 20 ms at 48 kHz) a sample with no payload and no dropped packets leaves
the timestamp at 1000, not at `1000 + (0+1) * 960`. -/
theorem writeSample_empty_payload_keeps_timestamp :
    demoTrack.IsBound = true ∧
    demoTrack.packetizer.map (fun p => p.Timestamp) = some 1000 ∧
    sampleCount demoEnv.oor demoTrack.clockRate emptySample.Duration = 960 ∧
    emptySample.PrevDroppedPackets = 0 ∧
    (demoTrack.WriteSample demoEnv emptySample none).track.packetizer.map
      (fun p => p.Timestamp) = some 1000 ∧
    (1000 + (0 + 1) * 960) % 2 ^ 32 ≠ 1000 := by decide

end lksdk

namespace lksdk

theorem writePackets_written (W : rtp.Packet → Option GoError) (id : Nat)
    (opts : Option SampleWriteOptions) (ps : List rtp.Packet) :
    (writePackets W id opts ps).1 = ps.filterMap (decorated id opts) := by
  induction ps with
  | nil => rfl
  | cons p rest ih =>
    simp only [writePackets, List.filterMap_cons, decorated]
    cases hd : decorate id opts p with
    | error e => simpa using ih
    | ok q =>
      cases hw : W q <;> simp [hw, ih]

theorem writePackets_errors (W : rtp.Packet → Option GoError) (id : Nat)
    (opts : Option SampleWriteOptions) (ps : List rtp.Packet) :
    (writePackets W id opts ps).2 = ps.filterMap (packetError W id opts) := by
  induction ps with
  | nil => rfl
  | cons p rest ih =>
    simp only [writePackets, List.filterMap_cons, packetError]
    cases hd : decorate id opts p with
    | error e => simpa using ih
    | ok q =>
      cases hw : W q <;> simp [hw, ih]

theorem filterMap_head_split {α β : Type} (f : α → Option β) (l : List α) (e : β)
    (h : (l.filterMap f).head? = some e) :
    ∃ pre p post, l = pre ++ p :: post ∧ (∀ x ∈ pre, f x = none) ∧ f p = some e := by
  induction l with
  | nil => simp at h
  | cons a rest ih =>
    cases ha : f a with
    | none =>
      rw [List.filterMap_cons, ha] at h
      obtain ⟨pre, p, post, h1, h2, h3⟩ := ih h
      refine ⟨a :: pre, p, post, by rw [h1]; rfl, ?_, h3⟩
      intro x hx
      rcases List.mem_cons.mp hx with rfl | hx
      · exact ha
      · exact h2 x hx
    | some b =>
      rw [List.filterMap_cons, ha] at h
      simp only [List.head?_cons, Option.some.injEq] at h
      subst h
      exact ⟨[], a, rest, rfl, by simp, ha⟩

theorem filterMap_head_none {α β : Type} (f : α → Option β) (l : List α) :
    (l.filterMap f).head? = none ↔ ∀ x ∈ l, f x = none := by
  induction l with
  | nil => simp
  | cons a rest ih =>
    cases ha : f a with
    | none => rw [List.filterMap_cons, ha]; simp [ih, ha]
    | some b => rw [List.filterMap_cons, ha]; simp [ha]

theorem writeSample_written_errors (env : WriteEnv) (s : LocalSampleTrack) (sample : Sample)
    (opts : Option SampleWriteOptions) :
    (s.WriteSample env sample opts).written =
      (s.WriteSample env sample opts).packets.filterMap (decorated s.audioLevelID opts) ∧
    (s.WriteSample env sample opts).err =
      ((s.WriteSample env sample opts).packets.filterMap
        (packetError env.WriteRTP s.audioLevelID opts)).head? := by
  unfold LocalSampleTrack.WriteSample
  cases hp : s.packetizer with
  | none => simp
  | some p =>
    cases hsq : s.sequencer with
    | none => simp
    | some sq =>
      simp only [writePackets_written, writePackets_errors, and_self]

/-- C4 (amended): `WriteSample` passes to the transport, in packet order, every
packet whose extension step succeeds, whatever happens to the other packets (a
packet whose extension encoding or attachment fails is recorded and skipped,
not written); it returns nil exactly when no packet fails, and otherwise the
error of the first failing packet in packet order. -/
theorem writeSample_best_effort (env : WriteEnv) (s : LocalSampleTrack) (sample : Sample)
    (opts : Option SampleWriteOptions) :
    (s.WriteSample env sample opts).written =
      (s.WriteSample env sample opts).packets.filterMap (decorated s.audioLevelID opts) ∧
    ((s.WriteSample env sample opts).err = none ↔
      ∀ p ∈ (s.WriteSample env sample opts).packets,
        packetError env.WriteRTP s.audioLevelID opts p = none) ∧
    (∀ e, (s.WriteSample env sample opts).err = some e →
      ∃ pre p post, (s.WriteSample env sample opts).packets = pre ++ p :: post ∧
        (∀ x ∈ pre, packetError env.WriteRTP s.audioLevelID opts x = none) ∧
        packetError env.WriteRTP s.audioLevelID opts p = some e) := by
  obtain ⟨hw, he⟩ := writeSample_written_errors env s sample opts
  refine ⟨hw, ?_, ?_⟩
  · rw [he]; exact filterMap_head_none _ _
  · intro e h
    rw [he] at h
    exact filterMap_head_split _ _ e h

/-- C4 fails when the extension step fails: with the audio-level identifier 1
negotiated and the level 200 supplied, the sample is packetized into one packet,
its extension cannot be encoded, and no transport write is attempted. -/
theorem writeSample_skips_failed_extension :
    (demoTrack.WriteSample demoEnv demoSample (some ⟨some 200⟩)).packets.length = 1 ∧
    (demoTrack.WriteSample demoEnv demoSample (some ⟨some 200⟩)).written = [] ∧
    (demoTrack.WriteSample demoEnv demoSample (some ⟨some 200⟩)).err =
      some GoError.errAudioLevelOverflow := by decide

end lksdk

namespace lksdk

theorem payloaderForCodec_some (tbl : Char → Char) (c : webrtc.RTPCodecCapability)
    (h : (payloaderForCodec tbl c).2 = none) :
    ∃ pl, payloaderForCodec tbl c = (some pl, none) := by
  rw [payloaderForCodec_eq_switch] at h ⊢
  unfold payloaderSwitch at h ⊢
  split_ifs at h ⊢ <;> exact ⟨_, rfl⟩

theorem findAudioLevelID_first (current : Nat)
    (exts : List webrtc.RTPHeaderExtensionParameter) (ext : webrtc.RTPHeaderExtensionParameter)
    (h : exts.find? (fun x => decide (x.URI = sdp.AudioLevelURI)) = some ext) :
    findAudioLevelID current exts = (ext.ID % 256).toNat := by
  induction exts with
  | nil => simp at h
  | cons a rest ih =>
    unfold findAudioLevelID
    by_cases ha : a.URI = sdp.AudioLevelURI
    · rw [if_pos ha]
      rw [List.find?_cons_of_pos _ (by simpa using ha)] at h
      cases h
      rfl
    · rw [if_neg ha]
      rw [List.find?_cons_of_neg _ (by simpa using ha)] at h
      exact ih h

theorem bind_success (tbl : Char → Char) (s : LocalSampleTrack) (t : BindInput)
    (hbind : t.rtpBind.2 = none)
    (hpay : (payloaderForCodec tbl t.rtpBind.1.RTPCodecCapability).2 = none) :
    ∃ pl, (s.Bind tbl t).track =
      { s with
        audioLevelID := findAudioLevelID s.audioLevelID t.HeaderExtensions
        sequencer := some (rtp.NewRandomSequencer t.seqDraw)
        packetizer := some (rtp.NewPacketizer rtpOutboundMTU 0 0 pl
          t.rtpBind.1.RTPCodecCapability.ClockRate t.tsDraw)
        clockRate := float64.ofInt t.rtpBind.1.RTPCodecCapability.ClockRate
        bound := 1 } := by
  obtain ⟨pl, hpl⟩ := payloaderForCodec_some tbl _ hpay
  refine ⟨pl, ?_⟩
  simp only [LocalSampleTrack.Bind, hbind, hpl]

theorem buildPackets_fresh (pz : rtp.Packetizer) (payloads : List (List Nat))
    (sq : rtp.Sequencer) :
    ∀ p ∈ (rtp.buildPackets pz sq payloads).1,
      p.Header.Extension = false ∧ p.Header.Extensions = [] := by
  induction payloads generalizing sq with
  | nil => intro p hp; simp [rtp.buildPackets] at hp
  | cons pp rest ih =>
    intro p hp
    simp only [rtp.buildPackets, List.mem_cons] at hp
    rcases hp with rfl | hp
    · exact ⟨rfl, rfl⟩
    · exact ih _ p hp

theorem packetize_fresh (frag : rtp.Fragmenter) (pz : rtp.Packetizer) (sq : rtp.Sequencer)
    (payload : List Nat) (samples : Nat) :
    ∀ p ∈ (pz.Packetize frag sq payload samples).1,
      p.Header.Extension = false ∧ p.Header.Extensions = [] := by
  unfold rtp.Packetizer.Packetize
  split_ifs with h
  · intro p hp; simp at hp
  · exact buildPackets_fresh _ _ _

theorem writeSample_packets_fresh (env : WriteEnv) (s : LocalSampleTrack) (sample : Sample)
    (opts : Option SampleWriteOptions) :
    ∀ p ∈ (s.WriteSample env sample opts).packets,
      p.Header.Extension = false ∧ p.Header.Extensions = [] := by
  unfold LocalSampleTrack.WriteSample
  cases hp : s.packetizer with
  | none => intro p h; simp at h
  | some pz =>
    cases hsq : s.sequencer with
    | none => intro p h; simp at h
    | some sq => exact packetize_fresh _ _ _ _ _

theorem land_127_of_le (v : Nat) (h : v ≤ 127) : v &&& 127 = v := by
  have : v &&& (2 ^ 7 - 1) = v % 2 ^ 7 := Nat.and_pow_two_sub_one_eq_mod v 7
  norm_num at this
  rw [this]; omega

theorem decorate_fresh (id v : Nat) (p : rtp.Packet) (hid : id ≠ 0)
    (hfresh : p.Header.Extension = false ∧ p.Header.Extensions = []) :
    (127 < v → decorated id (some ⟨some v⟩) p = none) ∧
    (v ≤ 127 → ∃ q, decorated id (some ⟨some v⟩) p = some q ∧
      q.Header.GetExtension id = some [v]) := by
  obtain ⟨h1, h2⟩ := hfresh
  constructor
  · intro hv
    simp [decorated, decorate, hid, rtp.AudioLevelExtension.Marshal, hv]
  · intro hv
    have hv2 : ¬ 127 < v := by omega
    simp [decorated, decorate, hid, rtp.AudioLevelExtension.Marshal, hv2,
      rtp.Header.SetExtension, rtp.Header.GetExtension, h1, h2]

theorem unmarshal_level (v : Nat) (h : v ≤ 127) :
    ∃ a, rtp.AudioLevelExtension.Unmarshal [v] = .ok a ∧ a.Level = v :=
  ⟨_, rfl, land_127_of_le v h⟩

/-- On every track whose audio-level identifier is set (not 0), every packet that
a `WriteSample` call supplying the level `v` hands to the transport carries an
extension with that identifier whose payload decodes to the level `v`. -/
theorem audio_level_any_state (env : WriteEnv) (b : LocalSampleTrack) (sample : Sample)
    (v : Nat) (hne : b.audioLevelID ≠ 0) :
    (∀ p ∈ (b.WriteSample env sample (some ⟨some v⟩)).written,
      ∃ data a, p.Header.GetExtension b.audioLevelID = some data ∧
        rtp.AudioLevelExtension.Unmarshal data = .ok a ∧ a.Level = v) ∧
    (v ≤ 127 →
      (b.WriteSample env sample (some ⟨some v⟩)).written.length =
      (b.WriteSample env sample (some ⟨some v⟩)).packets.length) := by
  obtain ⟨hw, -⟩ := writeSample_written_errors env b sample (some ⟨some v⟩)
  have hfresh := writeSample_packets_fresh env b sample (some ⟨some v⟩)
  generalize b.audioLevelID = id at hw hne ⊢
  constructor
  · intro p hp
    rw [hw, List.mem_filterMap] at hp
    obtain ⟨p0, hp0, hdec⟩ := hp
    obtain ⟨hbig, hsmall⟩ := decorate_fresh id v p0 hne (hfresh p0 hp0)
    by_cases hv : v ≤ 127
    · obtain ⟨q, hq, hget⟩ := hsmall hv
      rw [hq] at hdec
      cases hdec
      obtain ⟨a, ha, hl⟩ := unmarshal_level v hv
      exact ⟨[v], a, hget, ha, hl⟩
    · rw [hbig (by omega)] at hdec
      cases hdec
  · intro hv
    rw [hw]
    generalize (b.WriteSample env sample (some ⟨some v⟩)).packets = ps at hfresh
    induction ps with
    | nil => rfl
    | cons p0 rest ih =>
      obtain ⟨q, hq, -⟩ := (decorate_fresh id v p0 hne (hfresh p0 (List.mem_cons_self _ _))).2 hv
      rw [List.filterMap_cons, hq]
      simp only [List.length_cons]
      rw [ih (fun x hx => hfresh x (List.mem_cons_of_mem _ hx))]

theorem unbind_keeps_fields (s : LocalSampleTrack) (e1 e2 : Option GoError) :
    (s.Unbind e1 e2).track = { s with bound := 0 } := by
  unfold LocalSampleTrack.Unbind
  cases e2 <;> rfl

/-- A call other than `Bind` keeps the audio-level identifier, and keeps the
packetizer and the sequencer present. -/
theorem step_keeps_binding (tbl : Char → Char) (env : WriteEnv) (s : LocalSampleTrack)
    (c : Call) (hc : c.isBind = false) :
    (step tbl env s c).audioLevelID = s.audioLevelID ∧
    (s.packetizer.isSome = true ∧ s.sequencer.isSome = true →
      (step tbl env s c).packetizer.isSome = true ∧
      (step tbl env s c).sequencer.isSome = true) := by
  cases c with
  | bind t => simp [Call.isBind] at hc
  | unbind e1 e2 =>
    show (s.Unbind e1 e2).track.audioLevelID = s.audioLevelID ∧
      (s.packetizer.isSome = true ∧ s.sequencer.isSome = true →
        (s.Unbind e1 e2).track.packetizer.isSome = true ∧
        (s.Unbind e1 e2).track.sequencer.isSome = true)
    rw [unbind_keeps_fields]
    exact ⟨rfl, fun h => h⟩
  | startWrite p f e1 e2 =>
    simp only [step, LocalSampleTrack.StartWrite]
    split_ifs
    · exact ⟨rfl, fun h => h⟩
    · cases hprov : s.Provider with
      | none =>
        cases p with
        | none => exact ⟨rfl, fun h => h⟩
        | some q => cases e2 <;> exact ⟨rfl, fun h => h⟩
      | some old =>
        cases e1 with
        | some e => exact ⟨rfl, fun h => h⟩
        | none =>
          cases p with
          | none => exact ⟨rfl, fun h => h⟩
          | some q => cases e2 <;> exact ⟨rfl, fun h => h⟩
    · exact ⟨rfl, fun h => h⟩
  | onBind f => exact ⟨rfl, fun h => h⟩
  | onUnbind f => exact ⟨rfl, fun h => h⟩
  | writeSample sample opts =>
    simp only [step, LocalSampleTrack.WriteSample]
    cases hp : s.packetizer with
    | none => exact ⟨rfl, fun h => by simp at h⟩
    | some p =>
      cases hsq : s.sequencer with
      | none => exact ⟨rfl, fun h => by simp at h⟩
      | some sq => exact ⟨rfl, fun _ => ⟨rfl, rfl⟩⟩
  | workerBegin hd => exact ⟨rfl, fun h => h⟩

theorem foldl_keeps_binding (tbl : Char → Char) (env : WriteEnv) (calls : List Call) :
    ∀ s : LocalSampleTrack, (∀ c ∈ calls, c.isBind = false) →
      (calls.foldl (step tbl env) s).audioLevelID = s.audioLevelID ∧
      (s.packetizer.isSome = true ∧ s.sequencer.isSome = true →
        (calls.foldl (step tbl env) s).packetizer.isSome = true ∧
        (calls.foldl (step tbl env) s).sequencer.isSome = true) := by
  induction calls with
  | nil => intro s _; exact ⟨rfl, fun h => h⟩
  | cons c rest ih =>
    intro s h
    obtain ⟨h1, h2⟩ := step_keeps_binding tbl env s c (h c (List.mem_cons_self _ _))
    obtain ⟨h3, h4⟩ := ih (step tbl env s c) (fun x hx => h x (List.mem_cons_of_mem _ hx))
    exact ⟨by rw [List.foldl_cons, h3, h1], fun hs => h4 (h2 hs)⟩

/-- C5: when a successful `Bind` finds the audio-level extension among the
negotiated header extensions and records its identifier `id` (`uint8(ext.ID)`,
not 0), then in every state of that binding, reached by any sequence of calls
other than a new `Bind` (writes before, worker starts, provider changes,
callback setters, `Unbind`), the track still has that identifier and its
packetizer, and every packet that a `WriteSample` call supplying the level `v`
hands to the transport carries an extension with identifier `id` whose payload
decodes to the level `v`; for a level up to 127 every packet of the sample is
handed over. -/
theorem audio_level_on_every_packet (tbl : Char → Char) (env : WriteEnv)
    (s : LocalSampleTrack) (t : BindInput) (calls : List Call) (sample : Sample) (v id : Nat)
    (ext : webrtc.RTPHeaderExtensionParameter)
    (hbind : t.rtpBind.2 = none)
    (hpay : (payloaderForCodec tbl t.rtpBind.1.RTPCodecCapability).2 = none)
    (hneg : t.HeaderExtensions.find? (fun x => decide (x.URI = sdp.AudioLevelURI)) = some ext)
    (hid : (ext.ID % 256).toNat = id) (hne : id ≠ 0)
    (hcalls : ∀ c ∈ calls, c.isBind = false) :
    (calls.foldl (step tbl env) (s.Bind tbl t).track).audioLevelID = id ∧
    (calls.foldl (step tbl env) (s.Bind tbl t).track).packetizer.isSome = true ∧
    (∀ p ∈ ((calls.foldl (step tbl env) (s.Bind tbl t).track).WriteSample env sample
        (some ⟨some v⟩)).written,
      ∃ data a, p.Header.GetExtension id = some data ∧
        rtp.AudioLevelExtension.Unmarshal data = .ok a ∧ a.Level = v) ∧
    (v ≤ 127 →
      ((calls.foldl (step tbl env) (s.Bind tbl t).track).WriteSample env sample
        (some ⟨some v⟩)).written.length =
      ((calls.foldl (step tbl env) (s.Bind tbl t).track).WriteSample env sample
        (some ⟨some v⟩)).packets.length) := by
  obtain ⟨pl, hb⟩ := bind_success tbl s t hbind hpay
  have hal : (s.Bind tbl t).track.audioLevelID = id := by
    rw [hb, ← hid]
    exact findAudioLevelID_first _ _ _ hneg
  have hpz : (s.Bind tbl t).track.packetizer.isSome = true ∧
      (s.Bind tbl t).track.sequencer.isSome = true := by
    rw [hb]; exact ⟨rfl, rfl⟩
  obtain ⟨k1, k2⟩ := foldl_keeps_binding tbl env calls (s.Bind tbl t).track hcalls
  have hfin : (calls.foldl (step tbl env) (s.Bind tbl t).track).audioLevelID = id := by
    rw [k1, hal]
  have hany := audio_level_any_state env (calls.foldl (step tbl env) (s.Bind tbl t).track)
    sample v (by rw [hfin]; exact hne)
  rw [hfin] at hany
  exact ⟨hfin, (k2 hpz).1, hany.1, hany.2⟩

/-- Witness of `audio_level_on_every_packet`: the demo bind (identifier 1), then
two writes that take the sequencer through its wrap and a worker start, then a
write with the level 17. -/
theorem audio_level_on_every_packet_witness :
    (demoHistory.foldl (step (fun c => c) demoEnv)
      (NewLocalSampleTrack.Bind (fun c => c) demoBind).track).audioLevelID = 1 ∧
    (demoHistory.foldl (step (fun c => c) demoEnv)
      (NewLocalSampleTrack.Bind (fun c => c) demoBind).track).packetizer.isSome = true ∧
    (∀ p ∈ ((demoHistory.foldl (step (fun c => c) demoEnv)
        (NewLocalSampleTrack.Bind (fun c => c) demoBind).track).WriteSample demoEnv
        demoSample (some ⟨some 17⟩)).written,
      ∃ data a, p.Header.GetExtension 1 = some data ∧
        rtp.AudioLevelExtension.Unmarshal data = .ok a ∧ a.Level = 17) ∧
    (17 ≤ 127 →
      ((demoHistory.foldl (step (fun c => c) demoEnv)
        (NewLocalSampleTrack.Bind (fun c => c) demoBind).track).WriteSample demoEnv
        demoSample (some ⟨some 17⟩)).written.length =
      ((demoHistory.foldl (step (fun c => c) demoEnv)
        (NewLocalSampleTrack.Bind (fun c => c) demoBind).track).WriteSample demoEnv
        demoSample (some ⟨some 17⟩)).packets.length) :=
  audio_level_on_every_packet (fun c => c) demoEnv NewLocalSampleTrack demoBind demoHistory
    demoSample 17 1 ⟨sdp.AudioLevelURI, 1⟩ (by decide) (by decide) (by decide) (by decide)
    (by decide) (by decide)

end lksdk

namespace lksdk

theorem skipSequence_number (k : Nat) (sq : rtp.Sequencer) (h : sq.sequenceNumber < 65536) :
    (skipSequence k sq).sequenceNumber = (sq.sequenceNumber + k) % 65536 := by
  induction k generalizing sq with
  | zero => simp only [skipSequence, Nat.add_zero]; omega
  | succ k ih =>
    simp only [skipSequence]
    rw [ih]
    · simp only [rtp.Sequencer.NextSequenceNumber]; omega
    · simp only [rtp.Sequencer.NextSequenceNumber]; omega

theorem buildPackets_numbers (pz : rtp.Packetizer) (payloads : List (List Nat))
    (sq : rtp.Sequencer) (h : sq.sequenceNumber < 65536) :
    (rtp.buildPackets pz sq payloads).1.map (fun x => x.Header.SequenceNumber) =
      (List.range payloads.length).map (fun i => (sq.sequenceNumber + 1 + i) % 65536) ∧
    (rtp.buildPackets pz sq payloads).2.sequenceNumber =
      (sq.sequenceNumber + payloads.length) % 65536 := by
  induction payloads generalizing sq with
  | nil =>
    simp only [rtp.buildPackets, List.map_nil, List.length_nil, List.range_zero, Nat.add_zero,
      true_and]
    omega
  | cons pp rest ih =>
    have hn : (sq.NextSequenceNumber).2.sequenceNumber = (sq.sequenceNumber + 1) % 65536 := rfl
    have hn1 : (sq.NextSequenceNumber).1 = (sq.sequenceNumber + 1) % 65536 := rfl
    have hlt : (sq.NextSequenceNumber).2.sequenceNumber < 65536 := by rw [hn]; omega
    obtain ⟨ih1, ih2⟩ := ih (sq.NextSequenceNumber).2 hlt
    constructor
    · simp only [rtp.buildPackets, List.map_cons, List.length_cons, List.range_succ_eq_map,
        List.map_cons, List.map_map]
      rw [ih1, hn, hn1]
      congr 1
      apply List.map_congr_left
      intro i _
      simp only [Function.comp, Nat.add_zero]
      omega
    · simp only [rtp.buildPackets, List.length_cons]
      rw [ih2, hn]
      omega

theorem decorated_extensionOk (id : Nat) (opts : Option SampleWriteOptions) (p : rtp.Packet)
    (hfresh : p.Header.Extension = false ∧ p.Header.Extensions = []) :
    (extensionOk id opts = true →
      ∃ q, decorated id opts p = some q ∧ q.Header.SequenceNumber = p.Header.SequenceNumber) ∧
    (extensionOk id opts = false → decorated id opts p = none) := by
  obtain ⟨h1, h2⟩ := hfresh
  rcases opts with _ | ⟨_ | v⟩
  · exact ⟨fun _ => ⟨p, rfl, rfl⟩, fun h => by simp [extensionOk] at h⟩
  · exact ⟨fun _ => ⟨p, rfl, rfl⟩, fun h => by simp [extensionOk] at h⟩
  · by_cases hid : id = 0
    · subst hid
      exact ⟨fun _ => ⟨p, by simp [decorated, decorate], rfl⟩,
        fun h => by simp [extensionOk] at h⟩
    · by_cases hv : v ≤ 127
      · refine ⟨fun _ => ?_, fun h => by simp [extensionOk, hv] at h⟩
        have hv2 : ¬ 127 < v := by omega
        simp [decorated, decorate, hid, rtp.AudioLevelExtension.Marshal, hv2,
          rtp.Header.SetExtension, h1]
      · refine ⟨fun h => by simp [extensionOk, hv, hid] at h, fun _ => ?_⟩
        have hv2 : 127 < v := by omega
        simp [decorated, decorate, hid, rtp.AudioLevelExtension.Marshal, hv2]

theorem filterMap_decorated_numbers (id : Nat) (opts : Option SampleWriteOptions)
    (ps : List rtp.Packet)
    (hfresh : ∀ p ∈ ps, p.Header.Extension = false ∧ p.Header.Extensions = []) :
    (ps.filterMap (decorated id opts)).map (fun x => x.Header.SequenceNumber) =
      if extensionOk id opts = true then ps.map (fun x => x.Header.SequenceNumber) else [] := by
  induction ps with
  | nil => simp
  | cons p rest ih =>
    have ih2 := ih (fun x hx => hfresh x (List.mem_cons_of_mem _ hx))
    obtain ⟨hok, hbad⟩ := decorated_extensionOk id opts p (hfresh p (List.mem_cons_self _ _))
    by_cases h : extensionOk id opts = true
    · obtain ⟨q, hq, hs⟩ := hok h
      rw [List.filterMap_cons, hq]
      simp only [h, if_true, List.map_cons] at ih2 ⊢
      rw [ih2, hs]
    · have hf : extensionOk id opts = false := by simpa using h
      rw [List.filterMap_cons, hbad hf]
      simp only [h, if_false] at ih2 ⊢
      exact ih2

/-- One `WriteSample` call on a bound track: the numbers handed over and the
state afterwards. -/
theorem writeSample_numbers (env : WriteEnv) (s : LocalSampleTrack) (p : rtp.Packetizer)
    (sq : rtp.Sequencer) (sample : Sample) (opts : Option SampleWriteOptions)
    (hp : s.packetizer = some p) (hsq : s.sequencer = some sq)
    (hc : sq.sequenceNumber < 65536) :
    (s.WriteSample env sample opts).written.map (fun x => x.Header.SequenceNumber) =
      (if extensionOk s.audioLevelID opts = true then
        (List.range (fragmentCount env.frag p sample.Data)).map
          (fun i => (sq.sequenceNumber + sample.PrevDroppedPackets + 1 + i) % 65536)
       else []) ∧
    ∃ p2 sq2, (s.WriteSample env sample opts).track.packetizer = some p2 ∧
      (s.WriteSample env sample opts).track.sequencer = some sq2 ∧
      (s.WriteSample env sample opts).track.audioLevelID = s.audioLevelID ∧
      p2.Payloader = p.Payloader ∧ p2.MTU = p.MTU ∧
      p2.payloaderCalls = (afterPayload p sample.Data).payloaderCalls ∧
      sq2.sequenceNumber =
        (sq.sequenceNumber + sample.PrevDroppedPackets +
          fragmentCount env.frag p sample.Data) % 65536 := by
  have hwe := (writeSample_written_errors env s sample opts).1
  have hfresh := writeSample_packets_fresh env s sample opts
  rw [hwe, filterMap_decorated_numbers _ _ _ hfresh]
  rw [writeSample_bound_eq env s p sq sample opts hp hsq]
  dsimp only
  have hskip := skipSequence_number sample.PrevDroppedPackets sq hc
  have hskiplt : (skipSequence sample.PrevDroppedPackets sq).sequenceNumber < 65536 := by
    rw [hskip]; omega
  generalize skipSequence sample.PrevDroppedPackets sq = sq1 at hskip hskiplt
  generalize sampleCount env.oor s.clockRate sample.Duration = n
  have hp1 : ∀ x : Nat,
      (if 0 < sample.PrevDroppedPackets then p.SkipSamples x else p).Payloader = p.Payloader ∧
      (if 0 < sample.PrevDroppedPackets then p.SkipSamples x else p).MTU = p.MTU ∧
      (if 0 < sample.PrevDroppedPackets then p.SkipSamples x else p).payloaderCalls
        = p.payloaderCalls := by
    intro x; split_ifs <;> exact ⟨rfl, rfl, rfl⟩
  generalize hp1e : (if 0 < sample.PrevDroppedPackets
    then p.SkipSamples ((n * sample.PrevDroppedPackets) % 2 ^ 32) else p) = p1
  show _ ∧ ∃ p2 sq2, some _ = some p2 ∧ some _ = some sq2 ∧ s.audioLevelID = s.audioLevelID ∧ _
  have hpl : p1.Payloader = p.Payloader := by rw [← hp1e]; exact (hp1 _).1
  have hmtu : p1.MTU = p.MTU := by rw [← hp1e]; exact (hp1 _).2.1
  have hcalls : p1.payloaderCalls = p.payloaderCalls := by rw [← hp1e]; exact (hp1 _).2.2
  by_cases hd : sample.Data.length = 0
  · simp only [rtp.Packetizer.Packetize, hd, if_true, fragmentCount, afterPayload,
      List.range_zero, List.map_nil, ite_self, true_and]
    exact ⟨p1, sq1, rfl, rfl, hpl, hmtu, hcalls, by rw [hskip]; omega⟩
  · obtain ⟨hb1, hb2⟩ := buildPackets_numbers p1
      (env.frag p1.Payloader p1.payloaderCalls (p1.MTU - 12) sample.Data) sq1 hskiplt
    simp only [rtp.Packetizer.Packetize, hd, if_false, fragmentCount, afterPayload]
    rw [hpl, hmtu, hcalls] at hb1 hb2
    rw [hpl, hmtu, hcalls, hb1, hskip]
    refine ⟨?_, _, _, rfl, rfl, trivial, rfl, rfl, rfl, ?_⟩
    · congr 1
      apply List.map_congr_left
      intro i _
      omega
    · rw [hb2, hskip]
      omega

theorem callShapes_congr (frag : rtp.Fragmenter) (id : Nat)
    (calls : List (Sample × Option SampleWriteOptions)) :
    ∀ p p2 : rtp.Packetizer, p2.Payloader = p.Payloader → p2.MTU = p.MTU →
      p2.payloaderCalls = p.payloaderCalls →
      callShapes frag id p2 calls = callShapes frag id p calls := by
  induction calls with
  | nil => intro p p2 _ _ _; rfl
  | cons c rest ih =>
    intro p p2 h1 h2 h3
    have hf : fragmentCount frag p2 c.1.Data = fragmentCount frag p c.1.Data := by
      simp only [fragmentCount, h1, h2, h3]
    have ha := ih (afterPayload p c.1.Data) (afterPayload p2 c.1.Data)
      (by unfold afterPayload; split_ifs <;> exact h1)
      (by unfold afterPayload; split_ifs <;> exact h2)
      (by unfold afterPayload; split_ifs
          · exact h3
          · simp only [h2, h3])
    simp only [callShapes, hf, ha]

theorem writeAll_numbers (env : WriteEnv) (calls : List (Sample × Option SampleWriteOptions)) :
    ∀ (s : LocalSampleTrack) (p : rtp.Packetizer) (sq : rtp.Sequencer),
      s.packetizer = some p → s.sequencer = some sq → sq.sequenceNumber < 65536 →
      (writeAll env s calls).map (fun x => x.Header.SequenceNumber) =
        expectedSeqs sq.sequenceNumber (callShapes env.frag s.audioLevelID p calls) := by
  induction calls with
  | nil => intro s p sq _ _ _; rfl
  | cons c rest ih =>
    intro s p sq hp hsq hc
    obtain ⟨hnum, p2, sq2, hp2, hsq2, hal, hpl, hmtu, hpc, hn2⟩ :=
      writeSample_numbers env s p sq c.1 c.2 hp hsq hc
    have hlt : sq2.sequenceNumber < 65536 := by rw [hn2]; omega
    have ih2 := ih (s.WriteSample env c.1 c.2).track p2 sq2 hp2 hsq2 hlt
    have hcongr := callShapes_congr env.frag s.audioLevelID rest (afterPayload p c.1.Data) p2
      (by rw [hpl]; unfold afterPayload; split_ifs <;> rfl)
      (by rw [hmtu]; unfold afterPayload; split_ifs <;> rfl)
      hpc
    simp only [writeAll, List.map_append, callShapes, expectedSeqs]
    rw [hnum, ih2, hal, hn2, hcongr]

theorem expectedSeqs_range (l : List (Nat × Nat × Bool)) :
    ∀ c : Nat, c + (l.map (fun x => x.1 + x.2.1)).sum < 65536 →
      ∀ y ∈ expectedSeqs c l, c < y ∧ y ≤ c + (l.map (fun x => x.1 + x.2.1)).sum := by
  induction l with
  | nil => intro c _ y hy; simp [expectedSeqs] at hy
  | cons a rest ih =>
    obtain ⟨k, m, handed⟩ := a
    intro c hsum y hy
    simp only [List.map_cons, List.sum_cons] at hsum ⊢
    simp only [expectedSeqs, List.mem_append] at hy
    rcases hy with hy | hy
    · split_ifs at hy
      · simp only [List.mem_map, List.mem_range] at hy
        obtain ⟨i, hi, rfl⟩ := hy
        omega
      · simp at hy
    · have hmod : (c + k + m) % 65536 = c + k + m := by omega
      rw [hmod] at hy
      have := ih (c + k + m) (by omega) y hy
      omega

theorem expectedSeqs_increasing (l : List (Nat × Nat × Bool)) :
    ∀ c : Nat, c + (l.map (fun x => x.1 + x.2.1)).sum < 65536 →
      (expectedSeqs c l).Pairwise (fun a b => a < b) := by
  induction l with
  | nil => intro c _; simp [expectedSeqs]
  | cons a rest ih =>
    obtain ⟨k, m, handed⟩ := a
    intro c hsum
    simp only [List.map_cons, List.sum_cons] at hsum
    have hmod : (c + k + m) % 65536 = c + k + m := by omega
    simp only [expectedSeqs, hmod]
    rw [List.pairwise_append]
    refine ⟨?_, ih (c + k + m) (by omega), ?_⟩
    · split_ifs
      · rw [List.pairwise_map]
        refine List.Pairwise.imp_of_mem ?_ (List.pairwise_lt_range m)
        intro i j hi hj hij
        simp only [List.mem_range] at hi hj
        omega
      · exact List.Pairwise.nil
    · intro x hx y hy
      have hy2 := expectedSeqs_range rest (c + k + m) (by omega) y hy
      split_ifs at hx
      · simp only [List.mem_map, List.mem_range] at hx
        obtain ⟨i, hi, rfl⟩ := hx
        omega
      · simp at hx

/-- C3 (amended): within one binding the packets handed to the transport carry
consecutive sequence numbers modulo `2^16`: from the sequencer value `c`, each
`WriteSample` call declaring `k` dropped packets whose payload the payloader
splits, at that point of the run, into `m` fragments uses `c+k+1, ..., c+k+m`
(mod 65536) and leaves the counter at `c+k+m`; its packets are handed over in
that order unless the audio level cannot be encoded, in which case the numbers
are used up and nothing is handed over.  The numbers are strictly increasing as
long as the counter does not pass 65535. -/
theorem writeAll_sequence_numbers (env : WriteEnv) (s : LocalSampleTrack)
    (p : rtp.Packetizer) (sq : rtp.Sequencer)
    (calls : List (Sample × Option SampleWriteOptions))
    (hp : s.packetizer = some p) (hsq : s.sequencer = some sq)
    (hc : sq.sequenceNumber < 65536) :
    (writeAll env s calls).map (fun x => x.Header.SequenceNumber) =
      expectedSeqs sq.sequenceNumber (callShapes env.frag s.audioLevelID p calls) ∧
    (sq.sequenceNumber + ((callShapes env.frag s.audioLevelID p calls).map
        (fun x => x.1 + x.2.1)).sum < 65536 →
      ((writeAll env s calls).map (fun x => x.Header.SequenceNumber)).Pairwise
        (fun a b => a < b)) := by
  have h := writeAll_numbers env calls s p sq hp hsq hc
  refine ⟨h, ?_⟩
  intro hsum
  rw [h]
  exact expectedSeqs_increasing _ _ hsum

/-- Witness of `writeAll_sequence_numbers`: on a track at sequence number 7, with
a payloader that makes one fragment of its first payload and two of each later
one, the same payload written twice, the second write declaring two dropped
packets: the numbers are 8, then 11 and 12. -/
theorem writeAll_sequence_numbers_witness :
    (writeAll statefulEnv lowTrack demoCalls).map (fun x => x.Header.SequenceNumber) =
      expectedSeqs 7 [(0, 1, true), (2, 2, true)] ∧
    (7 + 5 < 65536 →
      ((writeAll statefulEnv lowTrack demoCalls).map
        (fun x => x.Header.SequenceNumber)).Pairwise (fun a b => a < b)) :=
  writeAll_sequence_numbers statefulEnv lowTrack ⟨1200, 0, 0, .OpusPayloader, 1000, 48000, []⟩
    ⟨7, 0⟩ demoCalls (by decide) (by decide) (by decide)

/-- A payloader that keeps state between calls is within the model: with the
payloader of `statefulEnv` the same payload written twice makes one packet and
then two, numbered 8, 9 and 10. -/
theorem same_payload_different_counts :
    (writeAll statefulEnv lowTrack [(demoSample, none), (demoSample, none)]).map
      (fun x => x.Header.SequenceNumber) = [8, 9, 10] ∧
    callShapes statefulEnv.frag lowTrack.audioLevelID
      ⟨1200, 0, 0, .OpusPayloader, 1000, 48000, []⟩ [(demoSample, none), (demoSample, none)] =
      [(0, 1, true), (0, 2, true)] := by decide

/-- C3 fails when the 16-bit counter wraps: on the demo track (sequencer at
65534) two one-packet samples are handed to the transport with the sequence
numbers 65535 and 0, which are not increasing.  It also fails when the audio
level of a write cannot be encoded: of three one-packet samples that declare no
dropped packets, the second with the level 200, the transport receives the
numbers 8 and 10, a gap that no declared drop accounts for. -/
theorem writeAll_wraps_sequence_number :
    demoTrack.IsBound = true ∧
    (writeAll demoEnv demoTrack [(demoSample, none), (demoSample, none)]).map
      (fun x => x.Header.SequenceNumber) = [65535, 0] ∧
    ¬ ((65535 : Nat) < 0) ∧
    (writeAll demoEnv lowTrack
      [(demoSample, none), (demoSample, some ⟨some 200⟩), (demoSample, none)]).map
      (fun x => x.Header.SequenceNumber) = [8, 10] := by decide

end lksdk

namespace lksdk

/-- The invariant of the lifecycle: a set bound flag comes with a packetizer and
a sequencer. -/
theorem step_preserves_assembly (tbl : Char → Char) (env : WriteEnv) (s : LocalSampleTrack)
    (c : Call)
    (h : s.bound = 1 → s.packetizer.isSome = true ∧ s.sequencer.isSome = true) :
    (step tbl env s c).bound = 1 →
      (step tbl env s c).packetizer.isSome = true ∧ (step tbl env s c).sequencer.isSome = true := by
  cases c with
  | bind t =>
    simp only [step, LocalSampleTrack.Bind]
    cases hb : t.rtpBind.2 with
    | some e => exact h
    | none =>
      rcases hpl : payloaderForCodec tbl t.rtpBind.1.RTPCodecCapability with ⟨_ | pl, _ | e⟩
      · exact h
      · exact h
      · intro _; exact ⟨rfl, rfl⟩
      · exact h
  | unbind e1 e2 =>
    intro hb
    simp only [step, LocalSampleTrack.Unbind] at hb
    cases e2 <;> simp at hb
  | startWrite p f e1 e2 =>
    simp only [step, LocalSampleTrack.StartWrite]
    split_ifs
    · exact h
    · cases hprov : s.Provider with
      | none =>
        cases p with
        | none => exact h
        | some q => cases e2 <;> exact h
      | some old =>
        cases e1 with
        | some e => exact h
        | none =>
          cases p with
          | none => exact h
          | some q => cases e2 <;> exact h
    · exact h
  | onBind f => exact h
  | onUnbind f => exact h
  | writeSample sample opts =>
    simp only [step, LocalSampleTrack.WriteSample]
    cases hp : s.packetizer with
    | none => intro hb; have := h hb; rw [hp] at this; simp at this
    | some p =>
      cases hsq : s.sequencer with
      | none => intro hb; have := h hb; rw [hsq] at this; simp at this
      | some sq => intro _; exact ⟨rfl, rfl⟩
  | workerBegin hd => exact h

theorem foldl_preserves_assembly (tbl : Char → Char) (env : WriteEnv) (calls : List Call) :
    ∀ s : LocalSampleTrack,
      (s.bound = 1 → s.packetizer.isSome = true ∧ s.sequencer.isSome = true) →
      ((calls.foldl (step tbl env) s).bound = 1 →
        (calls.foldl (step tbl env) s).packetizer.isSome = true ∧
        (calls.foldl (step tbl env) s).sequencer.isSome = true) := by
  induction calls with
  | nil => intro s h; exact h
  | cons c rest ih =>
    intro s h
    exact ih (step tbl env s c) (step_preserves_assembly tbl env s c h)

/-- C7 (amended): in every state reached from a new track by `Bind`, `Unbind`,
`StartWrite` (and the callback setters, `WriteSample` and worker starts), a set
bound flag implies that the packetizer and the sequencer are present.  `Unbind`
clears only the flag: after it `IsBound()` is false, the packetizer and the
sequencer of the last successful `Bind` stay in place, and a following
`WriteSample` hands to `rtpTrack.WriteRTP` the same packets as before `Unbind`. -/
theorem assembly_lifecycle (tbl : Char → Char) (env : WriteEnv) (calls : List Call) :
    ((run tbl env calls).IsBound = true →
      (run tbl env calls).packetizer.isSome = true ∧
      (run tbl env calls).sequencer.isSome = true) ∧
    (∀ e1 e2 : Option GoError,
      ((run tbl env calls).Unbind e1 e2).track.IsBound = false ∧
      ((run tbl env calls).Unbind e1 e2).track.packetizer = (run tbl env calls).packetizer ∧
      ((run tbl env calls).Unbind e1 e2).track.sequencer = (run tbl env calls).sequencer ∧
      ∀ (sample : Sample) (opts : Option SampleWriteOptions),
        (((run tbl env calls).Unbind e1 e2).track.WriteSample env sample opts).written =
          ((run tbl env calls).WriteSample env sample opts).written) := by
  constructor
  · intro hb
    apply foldl_preserves_assembly tbl env calls NewLocalSampleTrack
    · intro h; simp [NewLocalSampleTrack] at h
    · simpa [LocalSampleTrack.IsBound] using hb
  · intro e1 e2
    rw [unbind_keeps_fields]
    refine ⟨rfl, rfl, rfl, ?_⟩
    intro sample opts
    generalize run tbl env calls = s
    unfold LocalSampleTrack.WriteSample
    cases hp : s.packetizer with
    | none => rfl
    | some p =>
      cases hsq : s.sequencer with
      | none => simp only [hp, hsq]
      | some sq => simp only [hp, hsq]

/-- C7 fails: after `Bind` and then `Unbind` the track is not bound, yet the
packetizer and the sequencer are still present and `WriteSample` hands a packet
to `rtpTrack.WriteRTP`. -/
theorem unbind_leaves_assembly :
    (run (fun c => c) demoEnv [.bind demoBind, .unbind none none]).IsBound = false ∧
    (run (fun c => c) demoEnv [.bind demoBind, .unbind none none]).packetizer.isSome = true ∧
    (run (fun c => c) demoEnv [.bind demoBind, .unbind none none]).sequencer.isSome = true ∧
    ((run (fun c => c) demoEnv [.bind demoBind, .unbind none none]).WriteSample demoEnv
      demoSample none).written.length = 1 := by decide

end lksdk

namespace lksdk

theorem writeLoop_append (isAudio : Bool) (pre post : List Iteration) :
    ∀ t : Int, (writeLoop isAudio t pre).2 = .running →
      writeLoop isAudio t (pre ++ post) =
        ((writeLoop isAudio t pre).1 ++ (writeLoop isAudio (targetAfter t pre) post).1,
         (writeLoop isAudio (targetAfter t pre) post).2) := by
  induction pre with
  | nil => intro t _; simp [writeLoop, targetAfter]
  | cons it rest ih =>
    intro t h
    cases hn : it.next with
    | eof => simp [writeLoop, hn] at h
    | err e => simp [writeLoop, hn] at h
    | sample smp =>
      cases hw : it.writeErr with
      | some e => simp [writeLoop, hn, hw] at h
      | none =>
        simp only [writeLoop, hn, hw, List.cons_append, targetAfter, List.append_eq] at h ⊢
        by_cases h1 : t + smp.Duration - it.now < 0
        · simp only [h1, if_true] at h ⊢
          rw [ih _ h]
          simp
        · simp only [h1, if_false] at h ⊢
          by_cases h2 : t + smp.Duration - it.now ≤ 0
          · simp [time.resetPanics, h2] at h
          · simp only [time.resetPanics, h2, decide_False, Bool.false_eq_true, if_false] at h ⊢
            cases hs : selectBranch it with
            | done => simp [hs] at h
            | tick =>
              simp only [hs] at h ⊢
              rw [ih _ h]
              simp

theorem writeLoop_proceeds (isAudio : Bool) (its : List Iteration) :
    ∀ t : Int, proceeds t its →
      (writeLoop isAudio t its).2 = .running ∧
      writtenSamples (writeLoop isAudio t its).1 = providedSamples its := by
  induction its with
  | nil => intro t _; simp [writeLoop, writtenSamples, providedSamples]
  | cons it rest ih =>
    intro t h
    obtain ⟨smp, hn, hw, hbr, hrest⟩ := h
    obtain ⟨ih1, ih2⟩ := ih _ hrest
    rcases hbr with hneg | ⟨hpos, hsel⟩
    · simp only [writeLoop, hn, hw, hneg, if_true, providedSamples, writtenSamples]
      exact ⟨ih1, by rw [ih2]⟩
    · have h1 : ¬ t + smp.Duration - it.now < 0 := by omega
      have h2 : ¬ t + smp.Duration - it.now ≤ 0 := by omega
      simp only [writeLoop, hn, hw, h1, h2, if_false, hsel, providedSamples, writtenSamples,
        time.resetPanics, decide_False, Bool.false_eq_true]
      exact ⟨ih1, by rw [ih2]⟩

/-- When no sleep interval is exactly zero, no write fails and every wait ends
with the tick, a provider that returns the samples of `its` and then the end
of the stream makes the worker call `WriteSample` once per sample, in order,
and stop; the completion callback, if set, runs once. -/
theorem writeWorker_eof_run (isAudio : Bool) (f : Nat) (start : Int) (its : List Iteration)
    (last : Iteration) (h : proceeds start its) (hl : last.next = .eof) :
    writtenSamples (writeWorker isAudio (some f) start (its ++ [last])).events =
      providedSamples its ∧
    (writeWorker isAudio (some f) start (its ++ [last])).exit = .eof ∧
    (writeWorker isAudio (some f) start (its ++ [last])).completions = 1 := by
  obtain ⟨h1, h2⟩ := writeLoop_proceeds isAudio its start h
  have hlast : ∀ t : Int, writeLoop isAudio t [last] = ([], .eof) := by
    intro t; simp [writeLoop, hl]
  simp only [writeWorker, writeLoop_append isAudio its [last] start h1, hlast,
    List.append_nil, h2]
  simp

/-- C8 at the failing input: the provider returns two 20 ms samples and then
the end of the stream, nothing is cancelled and no write fails, but the clock
reads exactly the target time after the first write; the worker arms the
ticker with the interval 0, which panics, and the second sample is never
written. -/
theorem writeWorker_zero_interval_run :
    writeWorker false (some 1) 0
        [demoIteration 20000000 false, demoIteration 40000000 false, eofIteration false] =
      { events := [.writeSample demoSample none false, .schedule 20000000 0, .reset 0],
        exit := .resetPanic, completions := 1 } ∧
    writtenSamples (writeWorker false (some 1) 0
        [demoIteration 20000000 false, demoIteration 40000000 false,
          eofIteration false]).events = [demoSample] := by decide

/-- C9 (amended): the worker observes the cancellation at its wait step.  When
an iteration reaches the `select` (strictly positive interval) with the context
cancelled and no tick pending, the worker returns there: its run ends with that
`WriteSample` call of that iteration and no later input is used. -/
theorem cancellation_observed_at_wait (isAudio : Bool) (start : Int)
    (pre post : List Iteration) (it : Iteration) (smp : Sample)
    (hpre : (writeLoop isAudio start pre).2 = .running)
    (hn : it.next = .sample smp) (hw : it.writeErr = none)
    (hpos : 0 < targetAfter start pre + smp.Duration - it.now)
    (hdone : it.doneReady = true) (htick : it.tickReady = false) :
    writeLoop isAudio start (pre ++ it :: post) =
      ((writeLoop isAudio start pre).1 ++
        [.writeSample smp (if isAudio then some ⟨some it.level⟩ else none) it.cancelled,
         .schedule (targetAfter start pre + smp.Duration)
           (targetAfter start pre + smp.Duration - it.now),
         .reset (targetAfter start pre + smp.Duration - it.now)],
       .cancelled) := by
  rw [writeLoop_append isAudio pre (it :: post) start hpre]
  have h1 : ¬ targetAfter start pre + smp.Duration - it.now < 0 := by omega
  have h2 : ¬ targetAfter start pre + smp.Duration - it.now ≤ 0 := by omega
  have hs : selectBranch it = .done := by simp [selectBranch, hdone, htick]
  simp only [writeLoop, hn, hw, h1, h2, if_false, hs, time.resetPanics, decide_False,
    Bool.false_eq_true]

/-- Witness of `cancellation_observed_at_wait`: the second iteration waits with
the context cancelled. -/
theorem cancellation_observed_at_wait_witness :
    writeLoop false 0
        ([demoIteration 30000000 false] ++ demoIteration 35000000 true ::
          [demoIteration 60000000 true]) =
      ((writeLoop false 0 [demoIteration 30000000 false]).1 ++
        [.writeSample demoSample (if false then some ⟨some 0⟩ else none) true,
         .schedule (targetAfter 0 [demoIteration 30000000 false] + demoSample.Duration)
           (targetAfter 0 [demoIteration 30000000 false] + demoSample.Duration - 35000000),
         .reset (targetAfter 0 [demoIteration 30000000 false] + demoSample.Duration - 35000000)],
       .cancelled) :=
  cancellation_observed_at_wait false 0 [demoIteration 30000000 false]
    [demoIteration 60000000 true] (demoIteration 35000000 true) demoSample
    (by decide) rfl rfl (by decide) rfl rfl

/-- C9 fails when the worker is behind schedule: the first write ends 10 ms
after its target, so the loop skips the `select`; the context is cancelled
before the second iteration begins, and that iteration still calls
`WriteSample`.  It also fails at the wait step when a tick is pending together
with the cancellation and the `select` takes the tick: the next iteration
writes again. -/
theorem behind_schedule_ignores_cancellation :
    writeLoop false 0
        [demoIteration 30000000 false, demoIteration 50000000 true, eofIteration true] =
      ([.writeSample demoSample none false, .schedule 20000000 (-10000000),
        .writeSample demoSample none true, .schedule 40000000 (-10000000)], .eof) ∧
    writeLoop false 0
        [{ next := .sample demoSample, level := 0, writeErr := none, now := 10000000,
           cancelled := false, doneReady := true, tickReady := true, pick := .tick },
         demoIteration 50000000 true, eofIteration true] =
      ([.writeSample demoSample none false, .schedule 20000000 10000000, .reset 10000000,
        .writeSample demoSample none true, .schedule 40000000 (-10000000)], .eof) := by
  decide

/-- C10 at the failing inputs: when the clock reads exactly the target time after
a write, the sleep interval is 0, the loop does not take the `continue` of
`sleepDuration < 0`, and `ticker.Reset(0)` is called, which panics. -/
theorem zero_interval_arms_ticker (isAudio : Bool) (t : Int) (it : Iteration)
    (rest : List Iteration) (smp : Sample)
    (hn : it.next = .sample smp) (hw : it.writeErr = none)
    (h0 : it.now = t + smp.Duration) :
    writeLoop isAudio t (it :: rest) =
      ([.writeSample smp (if isAudio then some ⟨some it.level⟩ else none) it.cancelled,
        .schedule (t + smp.Duration) 0, .reset 0], .resetPanic) := by
  have h1 : t + smp.Duration - it.now = 0 := by omega
  simp only [writeLoop, hn, hw, h1, lt_irrefl, if_false, le_refl, if_true, time.resetPanics,
    decide_True]

/-- Witness of `zero_interval_arms_ticker`: a 20 ms sample written exactly on time. -/
theorem zero_interval_arms_ticker_witness :
    writeLoop true 5 (demoIteration 20000005 false :: [eofIteration false]) =
      ([.writeSample demoSample (if true then some ⟨some 0⟩ else none) false,
        .schedule (5 + demoSample.Duration) 0, .reset 0], .resetPanic) :=
  zero_interval_arms_ticker true 5 (demoIteration 20000005 false) [eofIteration false]
    demoSample rfl rfl (by decide)

/-- The parts of C10 that hold: after the iterations `pre` the loop continues
from the target time `start` plus the durations of the samples written, and a
negative interval goes on to the next sample without a call of `ticker.Reset`. -/
theorem target_time_accumulates (isAudio : Bool) (start : Int) (pre : List Iteration)
    (it : Iteration) (rest : List Iteration) (smp : Sample)
    (hpre : (writeLoop isAudio start pre).2 = .running)
    (hn : it.next = .sample smp) (hw : it.writeErr = none)
    (hneg : targetAfter start pre + smp.Duration - it.now < 0) :
    writeLoop isAudio start (pre ++ it :: rest) =
      ((writeLoop isAudio start pre).1 ++
        (.writeSample smp (if isAudio then some ⟨some it.level⟩ else none) it.cancelled ::
         .schedule (targetAfter start pre + smp.Duration)
           (targetAfter start pre + smp.Duration - it.now) ::
         (writeLoop isAudio (targetAfter start pre + smp.Duration) rest).1),
       (writeLoop isAudio (targetAfter start pre + smp.Duration) rest).2) := by
  rw [writeLoop_append isAudio pre (it :: rest) start hpre]
  simp only [writeLoop, hn, hw, hneg, if_true]

/-- The deferred completion callback runs on every return of the worker, not
only at the end of the stream: here the provider returns an error that is not
`io.EOF`. -/
theorem onComplete_runs_on_provider_error :
    writeWorker false (some 1) 0
        [{ next := .err (.other 7), level := 0, writeErr := none, now := 0,
           cancelled := false, doneReady := false, tickReady := false, pick := .tick }] =
      { events := [], exit := .providerError (.other 7), completions := 1 } := by decide

end lksdk

namespace float64

theorem scaleUp_spec (f : Nat) : ∀ a b : Nat,
    (scaleUp f a b).1 = a * 2 ^ (scaleUp f a b).2 ∧
    (2 ^ 52 * b ≤ a * 2 ^ f → 2 ^ 52 * b ≤ (scaleUp f a b).1) ∧
    (0 < (scaleUp f a b).2 → (scaleUp f a b).1 < 2 ^ 53 * b) ∧
    ((scaleUp f a b).2 = 0 → (scaleUp f a b).1 = a) := by
  induction f with
  | zero => intro a b; simp [scaleUp]
  | succ f ih =>
    intro a b
    by_cases h : 2 ^ 52 * b ≤ a
    · have hr : scaleUp (f + 1) a b = (a, 0) := by simp only [scaleUp, if_pos h]
      rw [hr]
      exact ⟨by simp, fun _ => h, fun hc => absurd hc (lt_irrefl 0), fun _ => rfl⟩
    · obtain ⟨h1, h2, h3, h4⟩ := ih (2 * a) b
      simp only [scaleUp, h, if_false]
      refine ⟨?_, ?_, ?_, ?_⟩
      · rw [h1, pow_succ]; ring
      · intro hf
        apply h2
        have hp : 2 ^ (f + 1) = 2 ^ f * 2 := pow_succ 2 f
        rw [hp] at hf
        linarith
      · intro _
        by_cases hz : 0 < (scaleUp f (2 * a) b).2
        · exact h3 hz
        · have hz0 : (scaleUp f (2 * a) b).2 = 0 := by omega
          rw [h4 hz0]
          omega
      · intro hc; omega

theorem scaleDown_spec (f : Nat) : ∀ a b : Nat,
    (scaleDown f a b).1 = b * 2 ^ (scaleDown f a b).2 ∧
    (a < 2 ^ 53 * b * 2 ^ f → a < 2 ^ 53 * (scaleDown f a b).1) ∧
    (2 ^ 52 * b ≤ a → 2 ^ 52 * (scaleDown f a b).1 ≤ a) ∧
    (a < 2 ^ 53 * b → (scaleDown f a b).2 = 0) := by
  induction f with
  | zero => intro a b; simp [scaleDown]
  | succ f ih =>
    intro a b
    by_cases h : a < 2 ^ 53 * b
    · have hr : scaleDown (f + 1) a b = (b, 0) := by simp only [scaleDown, if_pos h]
      rw [hr]
      exact ⟨by simp, fun _ => h, fun hc => hc, fun _ => rfl⟩
    · obtain ⟨h1, h2, h3, h4⟩ := ih a (2 * b)
      simp only [scaleDown, h, if_false]
      refine ⟨?_, ?_, ?_, ?_⟩
      · rw [h1, pow_succ]; ring
      · intro hf
        apply h2
        have hp : 2 ^ (f + 1) = 2 ^ f * 2 := pow_succ 2 f
        rw [hp] at hf
        linarith
      · intro _
        apply h3
        omega
      · intro hc; exact hc.elim

/-- What `roundNat` computes for a positive fraction: a mantissa `n` for the
scaled fraction `A / B` with `2^52 * B ≤ A < 2^53 * B`, within half a unit. -/
theorem roundNat_spec (a b : Nat) (ha : 0 < a) (hb : 0 < b) :
    ∃ k j n : Nat, roundNat a b = (n, (j : Int) - (k : Int)) ∧
      2 ^ 52 * (b * 2 ^ j) ≤ a * 2 ^ k ∧ a * 2 ^ k < 2 ^ 53 * (b * 2 ^ j) ∧
      2 * (n * (b * 2 ^ j)) ≤ 2 * (a * 2 ^ k) + b * 2 ^ j ∧
      2 * (a * 2 ^ k) ≤ 2 * (n * (b * 2 ^ j)) + b * 2 ^ j ∧
      (b * 2 ^ j ∣ a * 2 ^ k → n * (b * 2 ^ j) = a * 2 ^ k) := by
  obtain ⟨u1, u2, u3, -⟩ := scaleUp_spec (b + 53) a b
  have hfuel : 2 ^ 52 * b ≤ a * 2 ^ (b + 53) := by
    have h1 : b < 2 ^ b := Nat.lt_two_pow b
    have h2 : 2 ^ (b + 53) = 2 ^ b * 2 ^ 53 := by rw [pow_add]
    rw [h2]
    calc 2 ^ 52 * b ≤ 2 ^ 53 * 2 ^ b := by
          apply Nat.mul_le_mul (by norm_num) (le_of_lt h1)
      _ = 1 * (2 ^ b * 2 ^ 53) := by ring
      _ ≤ a * (2 ^ b * 2 ^ 53) := Nat.mul_le_mul_right _ ha
  have u2 := u2 hfuel
  generalize hU : scaleUp (b + 53) a b = U at u1 u2 u3
  obtain ⟨d1, d2, d3, d4⟩ := scaleDown_spec U.1 U.1 b
  have hfuel2 : U.1 < 2 ^ 53 * b * 2 ^ U.1 := by
    have h1 : U.1 < 2 ^ U.1 := Nat.lt_two_pow U.1
    calc U.1 < 2 ^ U.1 := h1
      _ = 1 * 2 ^ U.1 := by ring
      _ ≤ (2 ^ 53 * b) * 2 ^ U.1 := by
          apply Nat.mul_le_mul_right
          have : 1 ≤ 2 ^ 53 * b := Nat.mul_pos (by norm_num) hb
          exact this
  have d2 := d2 hfuel2
  have d3 := d3 u2
  generalize hD : scaleDown U.1 U.1 b = D at d1 d2 d3 d4
  have hDpos : 0 < D.1 := by rw [d1]; positivity
  have hr : roundNat a b =
      (if D.1 < 2 * (U.1 % D.1) ∨ (D.1 = 2 * (U.1 % D.1) ∧ U.1 / D.1 % 2 = 1)
        then U.1 / D.1 + 1 else U.1 / D.1, (D.2 : Int) - (U.2 : Int)) := by
    have hne : ¬ (a = 0 ∨ b = 0) := by omega
    simp only [roundNat, hne, if_false, hU, hD]
  refine ⟨U.2, D.2, _, hr, ?_, ?_, ?_, ?_, ?_⟩
  · rw [← u1, ← d1]; exact d3
  · rw [← u1, ← d1]; exact d2
  · rw [← u1, ← d1]
    have hdm := Nat.div_add_mod U.1 D.1
    have hml := Nat.mod_lt U.1 hDpos
    generalize U.1 / D.1 = q at hdm ⊢
    generalize U.1 % D.1 = r at hdm hml ⊢
    have hqd : D.1 * q = q * D.1 := Nat.mul_comm _ _
    split_ifs with hc
    · have : (q + 1) * D.1 = q * D.1 + D.1 := by ring
      omega
    · omega
  · rw [← u1, ← d1]
    have hdm := Nat.div_add_mod U.1 D.1
    have hml := Nat.mod_lt U.1 hDpos
    generalize hq : U.1 / D.1 = q at hdm ⊢
    generalize U.1 % D.1 = r at hdm hml ⊢
    have hqd : D.1 * q = q * D.1 := Nat.mul_comm _ _
    split_ifs with hc
    · have : (q + 1) * D.1 = q * D.1 + D.1 := by ring
      omega
    · have hc1 : ¬ D.1 < 2 * r := fun h => hc (Or.inl h)
      omega
  · rw [← u1, ← d1]
    intro hdvd
    have hmod : U.1 % D.1 = 0 := Nat.mod_eq_zero_of_dvd hdvd
    have hc : ¬ (D.1 < 2 * (U.1 % D.1) ∨ (D.1 = 2 * (U.1 % D.1) ∧ U.1 / D.1 % 2 = 1)) := by
      rw [hmod]; omega
    rw [if_neg hc]
    exact Nat.div_mul_cancel hdvd

end float64

namespace float64

theorem round_spec (a b : Nat) (s : Int) (hb : 0 < b) :
    0 ≤ (round (a : Int) b s).m ∧
    |toRat (round (a : Int) b s) - (a : ℚ) / b * 2 ^ s| ≤ (a : ℚ) / b * 2 ^ s / 2 ^ 53 ∧
    (b = 1 → a < 2 ^ 53 → toRat (round (a : Int) b s) = (a : ℚ) * 2 ^ s) := by
  rcases Nat.eq_zero_or_pos a with ha | ha
  · subst ha
    have hr : round ((0 : Nat) : Int) b s = ⟨0, 0⟩ := by
      simp [round, roundNat]
    rw [hr]
    simp [toRat]
  · obtain ⟨k, j, n, hr, h1, h2, h3, h4, h5⟩ := roundNat_spec a b ha hb
    have hBpos : 0 < b * 2 ^ j := by positivity
    have hn : 0 < n := by
      rcases Nat.eq_zero_or_pos n with h0 | h0
      · subst h0
        have hB1 : b * 2 ^ j ≤ 2 ^ 52 * (b * 2 ^ j) := Nat.le_mul_of_pos_left _ (by norm_num)
        omega
      · exact h0
    have hround : round (a : Int) b s = ⟨(n : Int), (j : Int) - (k : Int) + s⟩ := by
      have hn0 : n ≠ 0 := by omega
      have hneg : ¬ ((a : Int) < 0) := by omega
      simp only [round, Int.natAbs_ofNat, hr, hn0, if_false, hneg]
    rw [hround]
    have hbq : (0 : ℚ) < b := by exact_mod_cast hb
    have h2j : (0 : ℚ) < 2 ^ j := by positivity
    have h2k : (0 : ℚ) < 2 ^ k := by positivity
    have h2s : (0 : ℚ) < 2 ^ s := by positivity
    have hP : (2 : ℚ) ^ ((j : Int) - (k : Int) + s) = 2 ^ j / 2 ^ k * 2 ^ s := by
      rw [zpow_add₀ (by norm_num), zpow_sub₀ (by norm_num), zpow_natCast, zpow_natCast]
    have q1 : (2 : ℚ) ^ 52 * (b * 2 ^ j) ≤ a * 2 ^ k := by exact_mod_cast h1
    have q3 : (2 : ℚ) * (n * (b * 2 ^ j)) ≤ 2 * (a * 2 ^ k) + b * 2 ^ j := by exact_mod_cast h3
    have q4 : (2 : ℚ) * (a * 2 ^ k) ≤ 2 * (n * (b * 2 ^ j)) + b * 2 ^ j := by exact_mod_cast h4
    -- the scaled fraction
    have hexact : (a : ℚ) / b * 2 ^ s = (a * 2 ^ k) / (b * 2 ^ j) * (2 ^ j / 2 ^ k * 2 ^ s) := by
      field_simp
      ring
    have hBq : (0 : ℚ) < b * 2 ^ j := by positivity
    have hscale : (0 : ℚ) < 2 ^ j / 2 ^ k * 2 ^ s := by positivity
    set Q : ℚ := (a * 2 ^ k) / (b * 2 ^ j) with hQ
    set P : ℚ := 2 ^ j / 2 ^ k * 2 ^ s with hPdef
    have hQ52 : (2 : ℚ) ^ 52 ≤ Q := by
      rw [hQ, le_div_iff₀ hBq]; exact q1
    have hQB : Q * ((b : ℚ) * 2 ^ j) = (a : ℚ) * 2 ^ k := by
      rw [hQ]; exact div_mul_cancel₀ _ (ne_of_gt hBq)
    have hQn1 : (n : ℚ) - Q ≤ 1 / 2 := by
      have e1 : ((n : ℚ) - Q) * ((b : ℚ) * 2 ^ j) =
          (n : ℚ) * ((b : ℚ) * 2 ^ j) - Q * ((b : ℚ) * 2 ^ j) := by ring
      have e2 : ((n : ℚ) - Q) * ((b : ℚ) * 2 ^ j) ≤ (1 / 2) * ((b : ℚ) * 2 ^ j) := by
        rw [e1, hQB]; linarith
      exact le_of_mul_le_mul_right e2 hBq
    have hQn2 : Q - (n : ℚ) ≤ 1 / 2 := by
      have e1 : (Q - (n : ℚ)) * ((b : ℚ) * 2 ^ j) =
          Q * ((b : ℚ) * 2 ^ j) - (n : ℚ) * ((b : ℚ) * 2 ^ j) := by ring
      have e2 : (Q - (n : ℚ)) * ((b : ℚ) * 2 ^ j) ≤ (1 / 2) * ((b : ℚ) * 2 ^ j) := by
        rw [e1, hQB]; linarith
      exact le_of_mul_le_mul_right e2 hBq
    refine ⟨by simp, ?_, ?_⟩
    · simp only [toRat, hP]
      rw [hexact]
      have habs : |((n : Int) : ℚ) * P - Q * P| = |(n : ℚ) - Q| * P := by
        rw [← sub_mul, abs_mul, abs_of_pos hscale]; simp
      rw [habs]
      have h12 : |(n : ℚ) - Q| ≤ 1 / 2 := abs_le.mpr ⟨by linarith, hQn1⟩
      have hle : (1 : ℚ) / 2 ≤ Q / 2 ^ 53 := by
        rw [le_div_iff₀ (by positivity)]
        have : (2 : ℚ) ^ 53 = 2 * 2 ^ 52 := by norm_num
        rw [this]; linarith
      calc |(n : ℚ) - Q| * P ≤ (1 / 2) * P := by
            apply mul_le_mul_of_nonneg_right h12 (le_of_lt hscale)
        _ ≤ Q / 2 ^ 53 * P := by
            apply mul_le_mul_of_nonneg_right hle (le_of_lt hscale)
        _ = Q * P / 2 ^ 53 := by ring
    · intro hb1 ha53
      subst hb1
      have hjk : j ≤ k := by
        by_contra hcon
        have hkj : k + 1 ≤ j := by omega
        have hpow : 2 ^ (k + 1) ≤ 2 ^ j := Nat.pow_le_pow_right (by norm_num) hkj
        have hp2 : 2 ^ (k + 1) = 2 ^ k * 2 := pow_succ 2 k
        have hkpos : 0 < 2 ^ k := by positivity
        have h52 : 2 ^ 52 * (2 ^ k * 2) ≤ 2 ^ 52 * (1 * 2 ^ j) := by
          rw [one_mul, ← hp2]; exact Nat.mul_le_mul_left _ hpow
        have h53 : a * 2 ^ k < 2 ^ 53 * 2 ^ k := Nat.mul_lt_mul_of_pos_right ha53 hkpos
        have : 2 ^ 52 * (2 ^ k * 2) = 2 ^ 53 * 2 ^ k := by ring
        omega
      have hdvd : 1 * 2 ^ j ∣ a * 2 ^ k := by
        rw [one_mul]
        exact Dvd.dvd.mul_left (pow_dvd_pow 2 hjk) a
      have h5 := h5 hdvd
      have q5 : (n : ℚ) * (((1 : Nat) : ℚ) * 2 ^ j) = a * 2 ^ k := by exact_mod_cast h5
      simp only [toRat, hP]
      have hcast : ((n : Int) : ℚ) = n := Int.cast_natCast n
      rw [hcast, hPdef]
      have q6 : (n : ℚ) * 2 ^ j = a * 2 ^ k := by simpa using q5
      have e1 : (n : ℚ) * (2 ^ j / 2 ^ k * 2 ^ s) = (n : ℚ) * 2 ^ j / 2 ^ k * 2 ^ s := by ring
      rw [e1, q6, mul_div_assoc, div_self (ne_of_gt h2k), mul_one]

end float64

namespace float64

theorem toRat_nonneg (x : F64) (h : 0 ≤ x.m) : 0 ≤ toRat x := by
  unfold toRat
  have h1 : (0 : ℚ) ≤ (x.m : ℚ) := by exact_mod_cast h
  have h2 : (0 : ℚ) < 2 ^ x.e := by positivity
  positivity

theorem m_pos_of_toRat_pos (x : F64) (h : 0 < toRat x) : 0 < x.m := by
  unfold toRat at h
  have h2 : (0 : ℚ) < 2 ^ x.e := by positivity
  have h3 : (0 : ℚ) < (x.m : ℚ) := pos_of_mul_pos_left h (le_of_lt h2)
  exact_mod_cast h3

theorem ofInt_exact (z : Nat) (h : z < 2 ^ 53) :
    toRat (ofInt (z : Int)) = z ∧ 0 ≤ (ofInt (z : Int)).m := by
  obtain ⟨h1, -, h3⟩ := round_spec z 1 0 (by norm_num)
  refine ⟨?_, h1⟩
  have := h3 rfl h
  simpa [ofInt] using this

theorem mul_spec (x y : F64) (hx : 0 ≤ x.m) (hy : 0 ≤ y.m) :
    0 ≤ (mul x y).m ∧
    |toRat (mul x y) - toRat x * toRat y| ≤ toRat x * toRat y / 2 ^ 53 := by
  obtain ⟨a, ha⟩ := Int.eq_ofNat_of_zero_le (mul_nonneg hx hy)
  obtain ⟨h1, h2, -⟩ := round_spec a 1 (x.e + y.e) (by norm_num)
  have hm : mul x y = round (a : Int) 1 (x.e + y.e) := by
    simp only [mul, ha]
  have hval : (a : ℚ) / ((1 : Nat) : ℚ) * 2 ^ (x.e + y.e) = toRat x * toRat y := by
    have hq : ((a : Int) : ℚ) = (x.m : ℚ) * (y.m : ℚ) := by rw [← ha]; push_cast; ring
    have hq2 : ((a : Int) : ℚ) = (a : ℚ) := Int.cast_natCast a
    rw [hq2] at hq
    simp only [toRat, Nat.cast_one, div_one, hq]
    rw [zpow_add₀ (by norm_num : (2 : ℚ) ≠ 0)]
    ring
  rw [hm]
  rw [hval] at h2
  exact ⟨h1, h2⟩

theorem div_spec (x y : F64) (hx : 0 ≤ x.m) (hy : 0 < y.m) :
    0 ≤ (div x y).m ∧
    |toRat (div x y) - toRat x / toRat y| ≤ toRat x / toRat y / 2 ^ 53 := by
  obtain ⟨a, ha⟩ := Int.eq_ofNat_of_zero_le hx
  obtain ⟨b, hb⟩ := Int.eq_ofNat_of_zero_le (le_of_lt hy)
  have hbpos : 0 < b := by omega
  obtain ⟨h1, h2, -⟩ := round_spec a b (x.e - y.e) hbpos
  have hm : div x y = round (a : Int) b (x.e - y.e) := by
    have hneg : ¬ ((b : Int) < 0) := by omega
    simp only [div, ha, hb, Int.natAbs_ofNat, if_neg hneg]
  have hval : (a : ℚ) / (b : ℚ) * 2 ^ (x.e - y.e) = toRat x / toRat y := by
    have hqa : (x.m : ℚ) = (a : ℚ) := by rw [ha]; exact Int.cast_natCast a
    have hqb : (y.m : ℚ) = (b : ℚ) := by rw [hb]; exact Int.cast_natCast b
    have hb0 : (b : ℚ) ≠ 0 := by exact_mod_cast (ne_of_gt hbpos)
    simp only [toRat, hqa, hqb]
    rw [zpow_sub₀ (by norm_num : (2 : ℚ) ≠ 0)]
    have h2y : (2 : ℚ) ^ y.e ≠ 0 := by positivity
    field_simp
  rw [hm]
  rw [hval] at h2
  exact ⟨h1, h2⟩

theorem zpow_toNat_sub (e f : Int) (h : f ≤ e) :
    ((2 : ℚ) ^ (e - f).toNat) * 2 ^ f = 2 ^ e := by
  have h1 : ((e - f).toNat : Int) = e - f := Int.toNat_of_nonneg (by omega)
  have h2 : (2 : ℚ) ^ (e - f).toNat = 2 ^ (((e - f).toNat : Int)) := (zpow_natCast 2 _).symm
  rw [h2, h1, ← zpow_add₀ (by norm_num : (2 : ℚ) ≠ 0)]
  congr 1
  omega

theorem add_spec (x y : F64) (hx : 0 ≤ x.m) (hy : 0 ≤ y.m) :
    0 ≤ (add x y).m ∧
    |toRat (add x y) - (toRat x + toRat y)| ≤ (toRat x + toRat y) / 2 ^ 53 := by
  have hN : 0 ≤ x.m * 2 ^ (x.e - min x.e y.e).toNat + y.m * 2 ^ (y.e - min x.e y.e).toNat := by
    positivity
  obtain ⟨a, ha⟩ := Int.eq_ofNat_of_zero_le hN
  obtain ⟨h1, h2, -⟩ := round_spec a 1 (min x.e y.e) (by norm_num)
  have hm : add x y = round (a : Int) 1 (min x.e y.e) := by
    simp only [add, ha]
  have hval : (a : ℚ) / ((1 : Nat) : ℚ) * 2 ^ (min x.e y.e) = toRat x + toRat y := by
    have hq : ((a : Int) : ℚ) = (x.m : ℚ) * 2 ^ (x.e - min x.e y.e).toNat +
        (y.m : ℚ) * 2 ^ (y.e - min x.e y.e).toNat := by rw [← ha]; push_cast; ring
    have hq2 : ((a : Int) : ℚ) = (a : ℚ) := Int.cast_natCast a
    rw [hq2] at hq
    simp only [toRat, Nat.cast_one, div_one, hq, add_mul, mul_assoc]
    rw [zpow_toNat_sub x.e _ (min_le_left _ _), zpow_toNat_sub y.e _ (min_le_right _ _)]
  rw [hm]
  rw [hval] at h2
  exact ⟨h1, h2⟩

theorem trunc_eq_floor (x : F64) (h : 0 ≤ x.m) : trunc x = ⌊toRat x⌋ := by
  unfold trunc toRat
  by_cases he : 0 ≤ x.e
  · rw [if_pos he]
    have h1 : ((x.e.toNat : Int)) = x.e := Int.toNat_of_nonneg he
    have h2 : (2 : ℚ) ^ x.e = ((2 ^ x.e.toNat : Int) : ℚ) := by
      rw [← h1, zpow_natCast]; push_cast; rw [h1]
    rw [h2, ← Int.cast_mul, Int.floor_intCast]
  · rw [if_neg he]
    have hneg : 0 ≤ -x.e := by omega
    have h1 : (((-x.e).toNat : Int)) = -x.e := Int.toNat_of_nonneg hneg
    have h2 : (2 : ℚ) ^ x.e = 1 / (((2 ^ (-x.e).toNat : Nat) : ℚ)) := by
      have : x.e = -(((-x.e).toNat : Int)) := by omega
      rw [this, zpow_neg, zpow_natCast]
      push_cast
      rw [← this]
      simp
    rw [h2]
    have h3 : (x.m : ℚ) * (1 / (((2 ^ (-x.e).toNat : Nat) : ℚ))) =
        (x.m : ℚ) / (((2 ^ (-x.e).toNat : Nat) : ℚ)) := by ring
    rw [h3, Rat.floor_intCast_div_natCast]
    have hpow : ((2 : Int) ^ (-x.e).toNat) = (((2 ^ (-x.e).toNat : Nat)) : Int) := by push_cast; rfl
    rw [hpow]
    exact Int.tdiv_eq_ediv h (by positivity)

end float64

namespace lksdk

open float64

theorem rel_bounds (F X u : ℚ) (hu : u = 1 / 2 ^ 53) (h : |F - X| ≤ X / 2 ^ 53) :
    X * (1 - u) ≤ F ∧ F ≤ X * (1 + u) := by
  obtain ⟨h1, h2⟩ := abs_le.mp h
  subst hu
  constructor
  · have : X * (1 - 1 / 2 ^ 53) = X - X / 2 ^ 53 := by ring
    rw [this]; linarith
  · have : X * (1 + 1 / 2 ^ 53) = X + X / 2 ^ 53 := by ring
    rw [this]; linarith

/-- Three roundings in a row (the division by `1e9`, the addition of the whole
seconds, the multiplication by the clock rate) stay within `2^-19` of the exact
product when that product is below `2^32`. -/
theorem chain_error (sec A cr F2 F3 F4 : ℚ) (hsec0 : 0 ≤ sec) (hA0 : 0 ≤ A) (hcr0 : 0 ≤ cr)
    (f2e : |F2 - A| ≤ A / 2 ^ 53) (f3e : |F3 - (sec + F2)| ≤ (sec + F2) / 2 ^ 53)
    (f4e : |F4 - F3 * cr| ≤ F3 * cr / 2 ^ 53) (hxlt : (sec + A) * cr < 2 ^ 32 - 1) :
    |F4 - (sec + A) * cr| ≤ 1 / 2 ^ 19 := by
  obtain ⟨u, hu⟩ : ∃ u : ℚ, u = 1 / 2 ^ 53 := ⟨_, rfl⟩
  have hu0 : 0 < u := by rw [hu]; positivity
  have hu1 : u ≤ 1 / 8 := by rw [hu]; norm_num
  have hS0 : 0 ≤ sec + A := by positivity
  obtain ⟨a1, a2⟩ := rel_bounds F2 A u hu f2e
  have b1 : (sec + A) * (1 - u) ≤ sec + F2 := by
    have : (sec + A) * (1 - u) = sec * (1 - u) + A * (1 - u) := by ring
    have h3 : sec * (1 - u) ≤ sec := by nlinarith
    linarith
  have b2 : sec + F2 ≤ (sec + A) * (1 + u) := by
    have : (sec + A) * (1 + u) = sec * (1 + u) + A * (1 + u) := by ring
    have h3 : sec ≤ sec * (1 + u) := by nlinarith
    linarith
  have hu1m : 0 ≤ 1 - u := by linarith
  have hu1p : 0 ≤ 1 + u := by linarith
  obtain ⟨c1, c2⟩ := rel_bounds F3 (sec + F2) u hu f3e
  have c3 : (sec + A) * (1 - u) * (1 - u) ≤ F3 :=
    le_trans (mul_le_mul_of_nonneg_right b1 hu1m) c1
  have c4 : F3 ≤ (sec + A) * (1 + u) * (1 + u) :=
    le_trans c2 (mul_le_mul_of_nonneg_right b2 hu1p)
  obtain ⟨d1, d2⟩ := rel_bounds F4 (F3 * cr) u hu f4e
  have d3 : (sec + A) * (1 - u) * (1 - u) * cr * (1 - u) ≤ F4 :=
    le_trans (mul_le_mul_of_nonneg_right (mul_le_mul_of_nonneg_right c3 hcr0) hu1m) d1
  have d4 : F4 ≤ (sec + A) * (1 + u) * (1 + u) * cr * (1 + u) :=
    le_trans d2 (mul_le_mul_of_nonneg_right (mul_le_mul_of_nonneg_right c4 hcr0) hu1p)
  obtain ⟨X, hX⟩ : ∃ X : ℚ, X = (sec + A) * cr := ⟨_, rfl⟩
  have hX0 : 0 ≤ X := by rw [hX]; positivity
  have e1 : (sec + A) * (1 - u) * (1 - u) * cr * (1 - u) =
      X * ((1 - u) * (1 - u) * (1 - u)) := by rw [hX]; ring
  have e2 : (sec + A) * (1 + u) * (1 + u) * cr * (1 + u) =
      X * ((1 + u) * (1 + u) * (1 + u)) := by rw [hX]; ring
  rw [e1] at d3
  rw [e2] at d4
  rw [← hX] at hxlt ⊢
  have g1 : 1 - 4 * u ≤ (1 - u) * (1 - u) * (1 - u) := by nlinarith
  have g2 : (1 + u) * (1 + u) * (1 + u) ≤ 1 + 4 * u := by nlinarith
  have k1 : X * (1 - 4 * u) ≤ F4 := le_trans (mul_le_mul_of_nonneg_left g1 hX0) d3
  have k2 : F4 ≤ X * (1 + 4 * u) := le_trans d4 (mul_le_mul_of_nonneg_left g2 hX0)
  have hXu : X * (4 * u) ≤ 1 / 2 ^ 19 := by
    have h1 : X * (4 * u) ≤ 2 ^ 32 * (4 * u) := by
      apply mul_le_mul_of_nonneg_right _ (by positivity)
      linarith
    have h2 : (2 : ℚ) ^ 32 * (4 * u) = 1 / 2 ^ 19 := by rw [hu]; norm_num
    linarith
  rw [abs_le]
  constructor
  · have : X * (1 - 4 * u) = X - X * (4 * u) := by ring
    linarith
  · have : X * (1 + 4 * u) = X + X * (4 * u) := by ring
    linarith

theorem seconds_split (D : Nat) :
    time.Seconds (D : Int) =
      add (ofInt ((D / 10 ^ 9 : Nat) : Int))
        (div (ofInt ((D % 10 ^ 9 : Nat) : Int)) (ofInt ((1000000000 : Nat) : Int))) := by
  have hsecI : Int.tdiv (D : Int) time.Second = ((D / 10 ^ 9 : Nat) : Int) := by
    unfold time.Second
    rw [Int.tdiv_eq_ediv (by positivity) (by norm_num)]
    norm_cast
  have hnsI : Int.tmod (D : Int) time.Second = ((D % 10 ^ 9 : Nat) : Int) := by
    unfold time.Second
    rw [Int.tmod_eq_emod (by positivity) (by norm_num)]
    norm_cast
  simp only [time.Seconds, hsecI, hnsI]
  rfl

/-- The float product of `sampleCount` lies within `2^-19` of the exact product
`d * clockRate / 10^9` when that product is below `2^32 - 1`. -/
theorem product_error (D cr : Nat) (hd : D < 2 ^ 63) (hcr : cr < 2 ^ 32)
    (hx : D * cr < (2 ^ 32 - 1) * 10 ^ 9) :
    0 ≤ (mul (time.Seconds (D : Int)) (ofInt (cr : Int))).m ∧
    |toRat (mul (time.Seconds (D : Int)) (ofInt (cr : Int))) - (D : ℚ) * cr / 10 ^ 9|
      ≤ 1 / 2 ^ 19 := by
  have hsec53 : D / 10 ^ 9 < 2 ^ 53 := by
    have h2 := (Nat.div_le_div_right (le_of_lt hd) : D / 10 ^ 9 ≤ 2 ^ 63 / 10 ^ 9)
    norm_num at h2 ⊢
    omega
  have hns53 : D % 10 ^ 9 < 2 ^ 53 := by
    have : D % 10 ^ 9 < 10 ^ 9 := Nat.mod_lt _ (by norm_num)
    norm_num at this ⊢
    omega
  obtain ⟨f1v, f1m⟩ := ofInt_exact (D / 10 ^ 9) hsec53
  obtain ⟨nsv, nsm⟩ := ofInt_exact (D % 10 ^ 9) hns53
  obtain ⟨c9v, -⟩ := ofInt_exact 1000000000 (by norm_num)
  obtain ⟨crv, crm⟩ := ofInt_exact cr (by
    have : (2 : Nat) ^ 32 < 2 ^ 53 := by norm_num
    omega)
  have c9pos : 0 < (ofInt ((1000000000 : Nat) : Int)).m := by
    apply m_pos_of_toRat_pos
    rw [c9v]; norm_num
  obtain ⟨f2m, f2e⟩ := div_spec _ _ nsm c9pos
  rw [nsv, c9v] at f2e
  obtain ⟨f3m, f3e⟩ := add_spec _ _ f1m f2m
  rw [f1v] at f3e
  obtain ⟨f4m, f4e⟩ := mul_spec _ _ f3m crm
  rw [crv] at f4e
  rw [seconds_split]
  refine ⟨f4m, ?_⟩
  have hc9 : ((1000000000 : Nat) : ℚ) = 10 ^ 9 := by norm_num
  rw [hc9] at f2e
  have hsplit : (D : ℚ) * cr / 10 ^ 9 =
      (((D / 10 ^ 9 : Nat) : ℚ) + ((D % 10 ^ 9 : Nat) : ℚ) / 10 ^ 9) * cr := by
    have h1 := Nat.div_add_mod D (10 ^ 9)
    have h2 : (D : ℚ) = 10 ^ 9 * ((D / 10 ^ 9 : Nat) : ℚ) + ((D % 10 ^ 9 : Nat) : ℚ) := by
      exact_mod_cast h1.symm
    generalize ((D / 10 ^ 9 : Nat) : ℚ) = q at h2 ⊢
    generalize ((D % 10 ^ 9 : Nat) : ℚ) = r at h2 ⊢
    rw [h2]
    have h9 : ((10 : ℚ) ^ 9) ≠ 0 := by norm_num
    rw [div_eq_iff h9]
    have e1 : (q + r / 10 ^ 9) * (cr : ℚ) * 10 ^ 9 =
        (q * 10 ^ 9 + r / 10 ^ 9 * 10 ^ 9) * cr := by ring
    rw [e1, div_mul_cancel₀ r h9]
    ring
  have hxlt : (((D / 10 ^ 9 : Nat) : ℚ) + ((D % 10 ^ 9 : Nat) : ℚ) / 10 ^ 9) * cr
      < 2 ^ 32 - 1 := by
    rw [← hsplit]
    have h1 : ((D * cr : Nat) : ℚ) < (((2 ^ 32 - 1) * 10 ^ 9 : Nat) : ℚ) := by exact_mod_cast hx
    have h2 : (((2 ^ 32 - 1) * 10 ^ 9 : Nat) : ℚ) = (2 ^ 32 - 1) * 10 ^ 9 := by norm_num
    rw [h2] at h1
    push_cast at h1
    rw [div_lt_iff₀ (by positivity)]
    exact h1
  rw [hsplit]
  exact chain_error _ _ _ _ _ _ (by positivity) (by positivity) (by positivity)
    f2e f3e f4e hxlt

/-- C1 (amended): for a non-negative sample duration `d` (nanoseconds) and a
`uint32` clock rate whose product stays below `2^32 - 1`, the timestamp
increment that `WriteSample` passes to the packetizer is the `float64` product
`d.Seconds() * clockRate` truncated toward zero; it is the nearest integer to
the exact product `d * clockRate / 10^9` or the integer just below it. -/
theorem sampleCount_truncates (oor : F64 → Nat) (d : Int) (cr : Nat)
    (hd0 : 0 ≤ d) (hd : d < 2 ^ 63) (hcr : cr < 2 ^ 32)
    (hx : d * cr < (2 ^ 32 - 1) * 10 ^ 9) :
    ((sampleCount oor (ofInt (cr : Int)) d : Nat) : Int) =
      ⌊toRat (mul (time.Seconds d) (ofInt (cr : Int)))⌋ ∧
    nearest ((d : ℚ) * cr / 10 ^ 9) - 1 ≤ ((sampleCount oor (ofInt (cr : Int)) d : Nat) : Int) ∧
    ((sampleCount oor (ofInt (cr : Int)) d : Nat) : Int) ≤ nearest ((d : ℚ) * cr / 10 ^ 9) := by
  obtain ⟨D, rfl⟩ := Int.eq_ofNat_of_zero_le hd0
  have hdN : D < 2 ^ 63 := by exact_mod_cast hd
  have hxN : D * cr < (2 ^ 32 - 1) * 10 ^ 9 := by
    have h := hx
    norm_num at h ⊢
    exact_mod_cast h
  obtain ⟨hm, herr⟩ := product_error D cr hdN hcr hxN
  have hfl := trunc_eq_floor _ hm
  have hxq : (D : ℚ) * cr / 10 ^ 9 < 2 ^ 32 - 1 := by
    have h1 : ((D * cr : Nat) : ℚ) < (((2 ^ 32 - 1) * 10 ^ 9 : Nat) : ℚ) := by exact_mod_cast hxN
    have h2 : (((2 ^ 32 - 1) * 10 ^ 9 : Nat) : ℚ) = (2 ^ 32 - 1) * 10 ^ 9 := by norm_num
    rw [h2] at h1
    push_cast at h1
    rw [div_lt_iff₀ (by positivity)]
    exact h1
  have hx0 : (0 : ℚ) ≤ (D : ℚ) * cr / 10 ^ 9 := by positivity
  have hcast : (((D : Int) : ℚ)) = (D : ℚ) := Int.cast_natCast D
  rw [hcast]
  generalize (D : ℚ) * cr / 10 ^ 9 = x at herr hxq hx0 ⊢
  generalize hF : toRat (mul (time.Seconds (D : Int)) (ofInt (cr : Int))) = F at herr hfl ⊢
  obtain ⟨e1, e2⟩ := abs_le.mp herr
  have hF0 : 0 ≤ F := by rw [← hF]; exact toRat_nonneg _ hm
  have hfl0 : 0 ≤ ⌊F⌋ := Int.floor_nonneg.mpr hF0
  have hfl32 : ⌊F⌋ < 2 ^ 32 := by
    rw [Int.floor_lt]
    have : (1 : ℚ) / 2 ^ 19 < 1 := by norm_num
    push_cast
    linarith
  have hsc : ((sampleCount oor (ofInt (cr : Int)) (D : Int) : Nat) : Int) = ⌊F⌋ := by
    unfold sampleCount toUint32
    rw [hfl]
    rw [if_pos ⟨hfl0, hfl32⟩]
    exact Int.toNat_of_nonneg hfl0
  rw [hsc]
  refine ⟨rfl, ?_, ?_⟩
  · unfold nearest
    have h1 : ⌊x + 1 / 2⌋ < ⌊F⌋ + 2 := by
      rw [Int.floor_lt]
      have h2 := Int.lt_floor_add_one F
      have : (1 : ℚ) / 2 ^ 19 < 1 / 2 := by norm_num
      push_cast
      linarith
    omega
  · unfold nearest
    rw [Int.le_floor]
    have h2 := Int.floor_le F
    have : (1 : ℚ) / 2 ^ 19 < 1 / 2 := by norm_num
    linarith

/-- Witness of `sampleCount_truncates`: 20 ms at 48 kHz. -/
theorem sampleCount_truncates_witness :
    ((sampleCount demoEnv.oor (ofInt ((48000 : Nat) : Int)) 20000000 : Nat) : Int) =
      ⌊toRat (mul (time.Seconds 20000000) (ofInt ((48000 : Nat) : Int)))⌋ ∧
    nearest (((20000000 : Int) : ℚ) * (48000 : Nat) / 10 ^ 9) - 1 ≤
      ((sampleCount demoEnv.oor (ofInt ((48000 : Nat) : Int)) 20000000 : Nat) : Int) ∧
    ((sampleCount demoEnv.oor (ofInt ((48000 : Nat) : Int)) 20000000 : Nat) : Int) ≤
      nearest (((20000000 : Int) : ℚ) * (48000 : Nat) / 10 ^ 9) :=
  sampleCount_truncates demoEnv.oor 20000000 48000 (by decide) (by decide) (by decide)
    (by decide)

/-- C1 fails: the conversion truncates.  One thirtieth of a second
(`time.Second / 30`, 33333333 ns) at 90000 Hz gives 2999 although the exact
product 2999.99997 is nearest to 3000, and 2.9996 s at 1000 Hz (exact product
2999.6) gives 2999. -/
theorem sampleCount_not_rounded :
    sampleCount demoEnv.oor (ofInt 90000) 33333333 = 2999 ∧
    nearest ((33333333 : ℚ) * 90000 / 10 ^ 9) = 3000 ∧
    sampleCount demoEnv.oor (ofInt 1000) 2999600000 = 2999 ∧
    nearest ((2999600000 : ℚ) * 1000 / 10 ^ 9) = 3000 := by
  refine ⟨by decide, ?_, by decide, ?_⟩
  · unfold nearest
    rw [Int.floor_eq_iff]
    norm_num
  · unfold nearest
    rw [Int.floor_eq_iff]
    norm_num

end lksdk
